import Mathlib

/-!
Hash-bucket GPU kernel: integer to decimal string, fingerprint, bucket.

Shallow embedding of `tensorflow/core/kernels/tensor_to_hash_bucket_op_gpu.cu.cc`,
and of the wrapper `IfrtServingCoreSelector::ReserveDevice` of
`tensorflow/core/tfrt/ifrt/ifrt_serving_core_selector.cc`.

* A value of the C++ type `T` (a signed integer of `w` bits) is an `Int` in
  `[-2^(w-1), 2^(w-1))`; a result that is converted to a `w`-bit signed type goes
  through `wrap w`.  C++ `/` and `%` truncate towards zero: `Int.tdiv`, `Int.tmod`.
* The shared `char` array is a `Mem`: its contents, plus two ghost fields that
  record the offsets that were stored to and whether every `eigen_assert` held.
* A `char*` is an offset into that array.
* The two `do { } while (val != 0)` loops are recursive functions on a step
  budget; the callers pass `val.natAbs`, which the loops never use up
  (`IntegerToString.count_unfold`, `FillDigits.loop_unfold`).
* The threads of a block, and the blocks of a grid, run one after the other.
  Each thread stores to its own slot of the shared array and to its own entries
  of `hashes`.
-/

namespace TensorToHashBucket

/-! ## Machine integers -/

/-- Conversion of an integer to the signed two's complement type of `w` bits. -/
def wrap (w : Nat) (x : Int) : Int :=
  (x + 2 ^ (w - 1)) % 2 ^ w - 2 ^ (w - 1)

/-- The values of the signed integer type of `w` bits. -/
def InRange (w : Nat) (x : Int) : Prop :=
  -(2 ^ (w - 1)) ≤ x ∧ x < 2 ^ (w - 1)

instance (w : Nat) (x : Int) : Decidable (InRange w x) :=
  inferInstanceAs (Decidable (-(2 ^ (w - 1)) ≤ x ∧ x < 2 ^ (w - 1)))

/-- The widths of the signed types the kernel is instantiated at:
`int8`, `int16`, `int32`, `int64`. -/
def SupportedWidth (w : Nat) : Prop :=
  w = 8 ∨ w = 16 ∨ w = 32 ∨ w = 64

instance (w : Nat) : Decidable (SupportedWidth w) :=
  inferInstanceAs (Decidable (w = 8 ∨ w = 16 ∨ w = 32 ∨ w = 64))

/-! ## Shared memory -/

/-- The `char` array `s`, addressed by offset.  `log` (ghost) lists the offsets
stored to, the latest first; `asserts` (ghost) is true while every
`eigen_assert` evaluated so far held. -/
structure Mem where
  data : Int → Int
  log : List Int
  asserts : Bool

/-- Store `s[k] = c` of an `int` value `c`, converted to `char`. -/
def Mem.store (m : Mem) (k : Int) (c : Int) : Mem :=
  { data := fun j => if j = k then wrap 8 c else m.data j
    log := k :: m.log
    asserts := m.asserts }

/-- Assertion `eigen_assert(c)`. -/
def Mem.check (m : Mem) (c : Bool) : Mem :=
  { m with asserts := m.asserts && c }

/-- The `len` chars at offsets `p, p + 1, ..., p + len - 1`. -/
def Mem.read (m : Mem) (p : Int) (len : Int) : List Int :=
  (List.range len.toNat).map (fun (k : Nat) => m.data (p + (k : Int)))

/-- A memory with every char equal to `c` and nothing recorded. -/
def Mem.fill (c : Int) : Mem :=
  { data := fun _ => c, log := [], asserts := true }

/-! ## `FillDigits` and `IntegerToString` -/

/-- Constant `kSharedMemBufferSizePerThread = 64` (line 26). -/
def kSharedMemBufferSizePerThread : Int := 64

/-- The `do { ... } while (val != 0);` loop of `FillDigits` (lines 36-41), for
`T` of `w` bits.  `i` is the value of `*i`, `buf` the offset of the pointer
`buf`.  Returns `num_digits` and the memory after the loop. -/
def FillDigits.loop (w : Nat) (factor : Int) (i : Int) (buf : Int) :
    Nat → Int → Int → Mem → Int × Mem
  | fuel, val, num_digits, m =>
    let digit : Int := wrap 32 (Int.tmod val 10 * factor)
    let m1 := m.store (buf + (i + num_digits - 1)) (digit + 48)
    let val1 := wrap w (Int.tdiv val 10)
    let num_digits1 := num_digits - 1
    if val1 ≠ 0 then
      match fuel with
      | 0 => (num_digits1, m1)
      | f + 1 => FillDigits.loop w factor i buf f val1 num_digits1 m1
    else (num_digits1, m1)

/-- Function `FillDigits(val, num_digits, &i, buf)` (lines 28-44).  Returns the new
value of `*i` and the memory. -/
def FillDigits (w : Nat) (val : Int) (num_digits : Int) (i : Int) (m : Mem)
    (buf : Int) : Int × Mem :=
  let m0 := m.check (decide (num_digits ≤ kSharedMemBufferSizePerThread - i))
  let factor : Int := if val < 0 then -1 else 1
  let num_digits_a := num_digits
  let r := FillDigits.loop w factor i buf val.natAbs val num_digits m0
  (i + num_digits_a, r.2)

/-- The `do { ... } while (val_a != 0);` loop of `IntegerToString`
(lines 50-53).  Returns `num_digits`. -/
def IntegerToString.count (w : Nat) : Nat → Int → Int → Int
  | fuel, val_a, num_digits =>
    let val_a1 := wrap w (Int.tdiv val_a 10)
    let num_digits1 := num_digits + 1
    if val_a1 ≠ 0 then
      match fuel with
      | 0 => num_digits1
      | f + 1 => IntegerToString.count w f val_a1 num_digits1
    else num_digits1

/-- Function `IntegerToString(val, buf)` (lines 46-63).  Returns the length `i` and the
memory. -/
def IntegerToString (w : Nat) (val : Int) (m : Mem) (buf : Int) : Int × Mem :=
  let num_digits := IntegerToString.count w val.natAbs val 0
  let i : Int := 0
  let st : Int × Mem := if val < 0 then (i + 1, m.store (buf + i) 45) else (i, m)
  FillDigits w val num_digits st.1 st.2 buf

/-! ## `ComputeHashes` -/

/-- Expression `static_cast<int64>(a_hash % num_buckets)` (line 75) for the
`uint64_t` value `a_hash`: `num_buckets` is converted to the unsigned 64-bit type, the
remainder is taken there and converted back to `int64`.  For
`num_buckets = 0` the C++ remainder is undefined; `ComputeHashes.body` flags
that case. -/
def bucketOf (a_hash : Nat) (num_buckets : Int) : Int :=
  let nb : Nat := (num_buckets % 2 ^ 64).toNat
  wrap 64 ((a_hash % nb : Nat) : Int)

/-- State of a run of the kernel: the shared array `s` of the running block,
the output array `hashes`, and a ghost flag set once a remainder by zero was
executed. -/
structure KState where
  s : Mem
  hashes : List Int
  undefined : Bool

/-- Body of the kernel loop (lines 71-76) for the thread `threadIdx.x` at index
`tid`.  `Fingerprint64` (farmhash, not part of these sources) is the parameter
`F`; its result is a `uint64_t`. -/
def ComputeHashes.body (w : Nat) (F : List Int → Nat) (vals : List Int)
    (num_buckets : Int) (threadIdx : Nat) (tid : Nat) (st : KState) : KState :=
  let buf : Int := (threadIdx : Int) * kSharedMemBufferSizePerThread
  let r := IntegerToString w (vals.getD tid 0) st.s buf
  let size := r.1
  let a_hash : Nat := F (r.2.read buf size) % 2 ^ 64
  let a_bucket := bucketOf a_hash num_buckets
  { s := r.2
    hashes := st.hashes.set tid a_bucket
    undefined := st.undefined || decide (num_buckets = 0) }

/-- Modelled from the spec: `GPU_1D_KERNEL_LOOP(tid, vals_size)`, defined in
`gpu_kernel_helper.h`, is "a strided/looping index pattern so a group can
process more than one element": `tid` starts at the global index of the thread
and advances by the number of threads of the grid while `tid < vals_size`.
The step budget passed by `ComputeHashes.thread` is `vals_size`, enough for
any positive stride. -/
def ComputeHashes.loop (w : Nat) (F : List Int → Nat) (vals : List Int)
    (vals_size : Int) (num_buckets : Int) (threadIdx : Nat) (stride : Nat) :
    Nat → Nat → KState → KState
  | fuel, tid, st =>
    if (tid : Int) < vals_size then
      match fuel with
      | 0 => st
      | f + 1 =>
        ComputeHashes.loop w F vals vals_size num_buckets threadIdx stride f
          (tid + stride) (ComputeHashes.body w F vals num_buckets threadIdx tid st)
    else st

/-- One thread of `ComputeHashes` (lines 65-78): thread `threadIdx` of block
`blockIdx` in a grid of `gridDim` blocks of `blockDim` threads. -/
def ComputeHashes.thread (w : Nat) (F : List Int → Nat) (gridDim blockDim : Nat)
    (vals : List Int) (vals_size : Int) (num_buckets : Int)
    (blockIdx threadIdx : Nat) (st : KState) : KState :=
  ComputeHashes.loop w F vals vals_size num_buckets threadIdx (blockDim * gridDim)
    vals_size.toNat (blockIdx * blockDim + threadIdx) st

/-- One block: its threads `0, ..., blockDim - 1`, run one after the other on
the block's shared array, whose initial contents are `shared`. -/
def ComputeHashes.block (w : Nat) (F : List Int → Nat) (gridDim blockDim : Nat)
    (vals : List Int) (vals_size : Int) (num_buckets : Int) (shared : Mem)
    (blockIdx : Nat) (st : KState) : KState :=
  (List.range blockDim).foldl
    (fun st t => ComputeHashes.thread w F gridDim blockDim vals vals_size num_buckets
      blockIdx t st)
    { st with s := shared }

/-- The kernel on a grid of `gridDim` blocks of `blockDim` threads, the blocks
run one after the other; `shared b` is the initial contents of the shared array
of block `b`.  Returns the final state. -/
def ComputeHashes (w : Nat) (F : List Int → Nat) (gridDim blockDim : Nat)
    (shared : Nat → Mem) (vals : List Int) (vals_size : Int) (num_buckets : Int)
    (hashes : List Int) : KState :=
  (List.range gridDim).foldl
    (fun st b => ComputeHashes.block w F gridDim blockDim vals vals_size num_buckets
      (shared b) b st)
    { s := shared 0, hashes := hashes, undefined := false }

/-! ## `LaunchTensorToHashBucket` -/

/-- A `Status`: OK, or an error with its code. -/
inductive Status where
  | OK
  | Error (code : Nat)
  deriving DecidableEq, Repr

/-- Constant `kThreadsInBlock = 128` (line 90). -/
def kThreadsInBlock : Nat := 128

/-- Size of the shared array,
`kThreadsInBlock * kSharedMemBufferSizePerThread * sizeof(char)` (lines 91-92). -/
def shared_memory_bytes : Int := (kThreadsInBlock : Int) * kSharedMemBufferSizePerThread * 1

/-- What the functor leaves behind: the status recorded on the
`OpKernelContext`, the number of calls of `GpuLaunchKernel` (ghost), the
output array, and the flag of `KState`. -/
structure OpResult where
  status : Status
  launches : Nat
  output : List Int
  undefined : Bool

/-- Functor `LaunchTensorToHashBucket<GpuDevice, T>::operator()` (lines 84-100).
`ctx_status` is the status of the context on entry.

Modelled from the spec: `GetGpuLaunchConfigFixedBlockSize` and
`GpuLaunchKernel` are not part of these sources.  The configuration has
`thread_per_block = kThreadsInBlock` and a `block_count` picked by the device,
here the parameter `block_count`; the launch either fails with the status
`launch_status` ("the parallel dispatch cannot be started") and runs nothing,
or returns OK and runs the kernel. `OP_REQUIRES_OK` records a status that is
not OK on the context. -/
def LaunchTensorToHashBucket (w : Nat) (F : List Int → Nat) (block_count : Nat)
    (launch_status : Status) (shared : Nat → Mem) (ctx_status : Status)
    (num_buckets : Int) (input : List Int) (num_elems : Int) (output : List Int) :
    OpResult :=
  if num_elems > 0 then
    match launch_status with
    | Status.OK =>
      let k := ComputeHashes w F block_count kThreadsInBlock shared input num_elems
        num_buckets output
      { status := ctx_status, launches := 1, output := k.hashes, undefined := k.undefined }
    | Status.Error code =>
      { status := Status.Error code, launches := 1, output := output, undefined := false }
  else
    { status := ctx_status, launches := 0, output := output, undefined := false }

/-! ## Reference functions -/

/-- Number of decimal digits of `n`, `0` having the one digit `0`
(`Nat.digits 10 n` lists the digits of `n`, the least significant first). -/
def numDigits (n : Nat) : Nat :=
  if n = 0 then 1 else (Nat.digits 10 n).length

/-- The decimal digits of `n`, the most significant first; `0` is `[0]`. -/
def decimalDigits (n : Nat) : List Nat :=
  if n = 0 then [0] else (Nat.digits 10 n).reverse

/-- The standard decimal ASCII representation of `v`: `'-'` (45) when `v < 0`,
then the digits of `|v|` as the chars `'0' + d`. -/
def decimalAscii (v : Int) : List Int :=
  (if v < 0 then [45] else []) ++ (decimalDigits v.natAbs).map (fun (d : Nat) => (d : Int) + 48)


/-- The bucket index of a value as the contract states it:
`Fingerprint64(DecimalString(v)) mod num_buckets`. -/
def bucketOfValue (F : List Int → Nat) (num_buckets : Int) (v : Int) : Int :=
  bucketOf (F (decimalAscii v) % 2 ^ 64) num_buckets

/-- The entry `i` of `hashes` holds the bucket of `vals[i]`. -/
def Good (F : List Int → Nat) (vals : List Int) (num_buckets : Int) (i : Nat)
    (hashes : List Int) : Prop :=
  hashes[i]? = some (bucketOfValue F num_buckets (vals.getD i 0))


/-- Value of a string of ASCII decimal digits read from the left, starting from
`acc`; `none` at a char that is not a digit. -/
def parseDigits.go : List Int → Nat → Option Nat
  | [], acc => some acc
  | c :: cs, acc =>
    if 48 ≤ c ∧ c ≤ 57 then parseDigits.go cs (acc * 10 + (c - 48).toNat) else none

/-- Value of a non-empty string of ASCII decimal digits. -/
def parseDigits (s : List Int) : Option Nat :=
  if s = [] then none else parseDigits.go s 0

/-- Parser of a signed decimal integer: an optional `'-'` (45), then one or
more decimal digits. -/
def parseDecimal (s : List Int) : Option Int :=
  match s with
  | [] => none
  | c :: rest =>
    if c = 45 then (parseDigits rest).map (fun (n : Nat) => -(n : Int))
    else (parseDigits (c :: rest)).map (fun (n : Nat) => (n : Int))

/-- The list `l` of length `N` reordered by the permutation `p` of its
indices: the entry `k` of the result is the entry `p k` of `l`. -/
def permute {N : Nat} (p : Equiv.Perm (Fin N)) (l : List Int) : List Int :=
  List.ofFn (fun k : Fin N => l.getD (p k).val 0)

/-- The status code of `InvalidArgument` (`absl::StatusCode::kInvalidArgument`). -/
def InvalidArgument : Status := Status.Error 3

/-- A fingerprint function to run the kernel on: a polynomial hash of the
chars. -/
def sampleFingerprint (bytes : List Int) : Nat :=
  bytes.foldl (fun a c => a * 31 + c.toNat) 7

/-- An initial shared array for each block: every char is `'x'`. -/
def sampleShared (_blockIdx : Nat) : Mem := Mem.fill 120

/-! ## The rest of the model: failure of the launch, the core selector -/

/-- Modelled from the spec: `OP_REQUIRES_OK(c, s)`, defined outside these
sources.  A status `s` that is not OK is "reported as a fatal operation error
to the caller": it is recorded on the context and the function returns; an OK
status leaves the context as it is.  This is the status of the context after
`OP_REQUIRES_OK`, `ctx_status` being the one before. -/
def OP_REQUIRES_OK (ctx_status : Status) (s : Status) : Status :=
  match s with
  | Status.OK => ctx_status
  | Status.Error code => Status.Error code

/-- Modelled from the spec: `absl::StrCat(program_id)` for an integer
`program_id`, defined outside these sources; "`program_id` is stringified":
the result is its decimal string. -/
def StrCat (program_id : Int) : List Int := decimalAscii program_id

/-- The injected `tsl::ServingDeviceSelector`, declared outside these sources:
its `ReserveDevice` takes a string and, in the state `S` of the selector, gives
a reservation `R` and the next state. -/
structure ServingDeviceSelector (S R : Type) where
  ReserveDevice : List Int → S → R × S

/-- What a call of `IfrtServingCoreSelector::ReserveDevice` leaves: the
reservation it returns, the state of the injected selector, and (ghost) the
arguments of the calls it made to the injected selector, in order. -/
structure ReserveResult (S R : Type) where
  reservation : R
  selector_state : S
  calls : List (List Int)

/-- Function `IfrtServingCoreSelector::ReserveDevice(program_id)` (lines 30-33
of `ifrt_serving_core_selector.cc`); `device_selector_` is the selector that
the constructor (lines 26-28) stored, `st` its state at the call. -/
def IfrtServingCoreSelector.ReserveDevice {S R : Type}
    (device_selector_ : ServingDeviceSelector S R) (program_id : Int) (st : S) :
    ReserveResult S R :=
  let arg := StrCat program_id
  let r := device_selector_.ReserveDevice arg st
  { reservation := r.1, selector_state := r.2, calls := [arg] }

/-- A selector to run the wrapper on: its state counts the calls, and the
reservation is the number of earlier calls together with the string it got. -/
def sampleSelector : ServingDeviceSelector Nat (Nat × List Int) :=
  { ReserveDevice := fun name n => ((n, name), n + 1) }

/-! ## Arithmetic of the machine integers -/

theorem two_pow_width (w : Nat) (hw : 0 < w) : (2 : Int) ^ w = 2 * 2 ^ (w - 1) := by
  obtain ⟨k, rfl⟩ : ∃ k, w = k + 1 := ⟨w - 1, by omega⟩
  simp [pow_succ, mul_comm]

theorem wrap_eq_self (w : Nat) (hw : 0 < w) (x : Int) (hx : InRange w x) :
    wrap w x = x := by
  unfold wrap
  unfold InRange at hx
  rw [two_pow_width w hw]
  have h : (x + 2 ^ (w - 1)) % (2 * 2 ^ (w - 1)) = x + 2 ^ (w - 1) :=
    Int.emod_eq_of_lt (by omega) (by omega)
  rw [h]; omega

theorem SupportedWidth.pos {w : Nat} (h : SupportedWidth w) : 0 < w := by
  unfold SupportedWidth at h; omega

theorem tdiv_ten_of_nonneg {v : Int} (h : 0 ≤ v) : Int.tdiv v 10 = v / 10 :=
  Int.tdiv_eq_ediv h (by decide)

theorem tdiv_ten_of_neg {v : Int} (h : v < 0) : Int.tdiv v 10 = -((-v) / 10) := by
  have h1 : Int.tdiv v 10 = -(Int.tdiv (-v) 10) := by
    rw [Int.neg_tdiv, neg_neg]
  rw [h1, tdiv_ten_of_nonneg (by omega)]

theorem tmod_ten_of_nonneg {v : Int} (h : 0 ≤ v) : Int.tmod v 10 = v % 10 :=
  Int.tmod_eq_emod h (by decide)

theorem tmod_ten_of_neg {v : Int} (h : v < 0) : Int.tmod v 10 = -((-v) % 10) := by
  rw [Int.tmod_def, tdiv_ten_of_neg h]; omega

theorem natAbs_tdiv_ten (v : Int) : (Int.tdiv v 10).natAbs = v.natAbs / 10 := by
  rcases Int.lt_or_le v 0 with h | h
  · rw [tdiv_ten_of_neg h]; omega
  · rw [tdiv_ten_of_nonneg h]; omega

theorem inRange_tdiv_ten (w : Nat) (v : Int) (hv : InRange w v) :
    InRange w (Int.tdiv v 10) := by
  unfold InRange at *
  rcases Int.lt_or_le v 0 with h | h
  · rw [tdiv_ten_of_neg h]; omega
  · rw [tdiv_ten_of_nonneg h]; omega

/-- For a value of the type, the quotient by 10 is not changed by the conversion
back to the type. -/
theorem wrap_tdiv_ten (w : Nat) (hw : 0 < w) (v : Int) (hv : InRange w v) :
    wrap w (Int.tdiv v 10) = Int.tdiv v 10 :=
  wrap_eq_self w hw _ (inRange_tdiv_ten w v hv)

theorem tdiv_ten_ne_zero_iff (v : Int) : Int.tdiv v 10 ≠ 0 ↔ 10 ≤ v.natAbs := by
  rw [← Int.natAbs_ne_zero, natAbs_tdiv_ten]; omega

theorem tdiv_ten_neg_iff (v : Int) (h : Int.tdiv v 10 ≠ 0) : Int.tdiv v 10 < 0 ↔ v < 0 := by
  rcases Int.lt_or_le v 0 with h1 | h1
  · rw [tdiv_ten_of_neg h1] at h ⊢; omega
  · rw [tdiv_ten_of_nonneg h1] at h ⊢; omega

/-- The digit computed at line 37: `(val % 10) * factor` is the last decimal
digit of `|val|`. -/
theorem digit_eq (val factor : Int) (hneg : val < 0 → factor = -1)
    (hpos : 0 < val → factor = 1) :
    wrap 32 (Int.tmod val 10 * factor) = ((val.natAbs % 10 : Nat) : Int) := by
  have key : Int.tmod val 10 * factor = ((val.natAbs % 10 : Nat) : Int) := by
    rcases Int.lt_trichotomy val 0 with h | h | h
    · rw [hneg h, tmod_ten_of_neg h]; omega
    · subst h; simp
    · rw [hpos h, tmod_ten_of_nonneg (by omega)]; omega
  rw [key]
  apply wrap_eq_self 32 (by decide)
  unfold InRange
  constructor <;> norm_num <;> omega

theorem numDigits_of_lt {n : Nat} (h : n < 10) : numDigits n = 1 := by
  unfold numDigits
  split
  · rfl
  · rw [Nat.digits_def' (by decide) (by omega)]
    simp [Nat.div_eq_of_lt h]

theorem numDigits_of_ge {n : Nat} (h : 10 ≤ n) : numDigits n = numDigits (n / 10) + 1 := by
  unfold numDigits
  rw [if_neg (by omega), if_neg (by omega), Nat.digits_def' (by decide) (by omega)]
  simp

theorem numDigits_pos (n : Nat) : 1 ≤ numDigits n := by
  rcases Nat.lt_or_ge n 10 with h | h
  · rw [numDigits_of_lt h]
  · rw [numDigits_of_ge h]; omega

theorem lt_ten_pow_numDigits (n : Nat) : n < 10 ^ numDigits n := by
  unfold numDigits
  split
  · subst_vars; decide
  · exact Nat.lt_base_pow_length_digits (by decide)

theorem numDigits_le_of_lt_pow (n k : Nat) (hk : 0 < k) (h : n < 10 ^ k) : numDigits n ≤ k := by
  induction k generalizing n with
  | zero => omega
  | succ k ih =>
    rcases Nat.lt_or_ge n 10 with h1 | h1
    · rw [numDigits_of_lt h1]; omega
    · rw [numDigits_of_ge h1]
      have hk0 : 0 < k := by
        rcases Nat.eq_zero_or_pos k with h0 | h0
        · subst h0; simp at h; omega
        · exact h0
      have := ih (n / 10) hk0 (by rw [pow_succ] at h; omega)
      omega

theorem decimalDigits_of_lt {n : Nat} (h : n < 10) : decimalDigits n = [n] := by
  unfold decimalDigits
  split
  · subst_vars; rfl
  · rw [Nat.digits_def' (by decide) (by omega)]
    simp [Nat.div_eq_of_lt h, Nat.mod_eq_of_lt h]

theorem decimalDigits_of_ge {n : Nat} (h : 10 ≤ n) :
    decimalDigits n = decimalDigits (n / 10) ++ [n % 10] := by
  unfold decimalDigits
  rw [if_neg (by omega), if_neg (by omega), Nat.digits_def' (by decide) (by omega)]
  simp

theorem length_decimalDigits (n : Nat) : (decimalDigits n).length = numDigits n := by
  unfold decimalDigits numDigits
  split <;> simp

/-! ## Memory -/

theorem Mem.read_natCast_succ (m : Mem) (p : Int) (L : Nat) :
    m.read p ((L + 1 : Nat) : Int) = m.read p (L : Int) ++ [m.data (p + (L : Int))] := by
  unfold Mem.read
  simp only [Int.toNat_ofNat, List.range_succ, List.map_append, List.map_cons, List.map_nil]

theorem Mem.read_one (m : Mem) (p : Int) : m.read p ((1 : Nat) : Int) = [m.data p] := by
  simp [Mem.read, List.range_succ]

theorem Mem.read_congr (m m' : Mem) (p : Int) (L : Nat)
    (h : ∀ k : Nat, k < L → m.data (p + (k : Int)) = m'.data (p + (k : Int))) :
    m.read p (L : Int) = m'.read p (L : Int) := by
  unfold Mem.read
  simp only [Int.toNat_ofNat]
  apply List.map_congr_left
  intro k hk
  exact h k (List.mem_range.mp hk)

theorem Mem.length_read (m : Mem) (p : Int) (len : Int) : (m.read p len).length = len.toNat := by
  simp [Mem.read]

theorem wrap_char_digit (d : Nat) (h : d < 10) : wrap 8 ((d : Int) + 48) = (d : Int) + 48 := by
  apply wrap_eq_self 8 (by decide)
  unfold InRange
  constructor <;> norm_num <;> omega

/-! ## The two loops -/

theorem IntegerToString.count_eq (w : Nat) (hw : 0 < w) :
    ∀ (fuel : Nat) (val_a num_digits : Int), InRange w val_a → val_a.natAbs ≤ fuel →
      IntegerToString.count w fuel val_a num_digits
        = num_digits + (numDigits val_a.natAbs : Int) := by
  intro fuel
  induction fuel with
  | zero =>
    intro val_a nd hr hf
    have h0 : val_a = 0 := by omega
    subst h0
    unfold IntegerToString.count
    simp [wrap_tdiv_ten w hw 0 hr, numDigits]
  | succ f ih =>
    intro val_a nd hr hf
    unfold IntegerToString.count
    simp only [wrap_tdiv_ten w hw val_a hr]
    by_cases h : Int.tdiv val_a 10 ≠ 0
    · rw [if_pos h]
      have h10 := (tdiv_ten_ne_zero_iff val_a).mp h
      rw [ih _ _ (inRange_tdiv_ten w val_a hr) (by rw [natAbs_tdiv_ten]; omega),
        natAbs_tdiv_ten, numDigits_of_ge h10]
      push_cast; ring
    · rw [if_neg h]
      have h10 : val_a.natAbs < 10 := by
        by_contra hc; exact h ((tdiv_ten_ne_zero_iff val_a).mpr (by omega))
      rw [numDigits_of_lt h10]; rfl

theorem FillDigits.loop_of_lt (w : Nat) (hw : 0 < w) (factor i buf : Int) (fuel : Nat)
    (val num_digits : Int) (m : Mem) (hr : InRange w val)
    (hneg : val < 0 → factor = -1) (hpos : 0 < val → factor = 1) (h10 : val.natAbs < 10) :
    FillDigits.loop w factor i buf fuel val num_digits m
      = (num_digits - 1,
          m.store (buf + (i + num_digits - 1)) (((val.natAbs : Nat) : Int) + 48)) := by
  have h : ¬ (Int.tdiv val 10 ≠ 0) := by
    intro hc; have := (tdiv_ten_ne_zero_iff val).mp hc; omega
  unfold FillDigits.loop
  simp only [wrap_tdiv_ten w hw val hr, digit_eq val factor hneg hpos, if_neg h,
    Nat.mod_eq_of_lt h10]

theorem FillDigits.loop_of_ge (w : Nat) (hw : 0 < w) (factor i buf : Int) (f : Nat)
    (val num_digits : Int) (m : Mem) (hr : InRange w val)
    (hneg : val < 0 → factor = -1) (hpos : 0 < val → factor = 1) (h10 : 10 ≤ val.natAbs) :
    FillDigits.loop w factor i buf (f + 1) val num_digits m
      = FillDigits.loop w factor i buf f (Int.tdiv val 10) (num_digits - 1)
          (m.store (buf + (i + num_digits - 1)) (((val.natAbs % 10 : Nat) : Int) + 48)) := by
  have h : Int.tdiv val 10 ≠ 0 := (tdiv_ten_ne_zero_iff val).mpr h10
  rw [FillDigits.loop]
  simp only [wrap_tdiv_ten w hw val hr, digit_eq val factor hneg hpos, if_pos h]

/-- What the loop of `FillDigits` does on a value of the type: it writes the
`L` decimal digits of `|val|` at the offsets `buf + i + num_digits - L, ...,
buf + i + num_digits - 1`, from the last one down to the first. -/
theorem FillDigits.loop_spec (w : Nat) (hw : 0 < w) (factor i buf : Int) :
    ∀ (fuel : Nat) (val num_digits : Int) (m : Mem), InRange w val → val.natAbs ≤ fuel →
      (val < 0 → factor = -1) → (0 < val → factor = 1) →
      (FillDigits.loop w factor i buf fuel val num_digits m).1
          = num_digits - (numDigits val.natAbs : Int) ∧
      (FillDigits.loop w factor i buf fuel val num_digits m).2.asserts = m.asserts ∧
      (FillDigits.loop w factor i buf fuel val num_digits m).2.log
          = (List.range (numDigits val.natAbs)).map
              (fun (k : Nat) => buf + (i + num_digits - (numDigits val.natAbs : Int)) + (k : Int))
            ++ m.log ∧
      (FillDigits.loop w factor i buf fuel val num_digits m).2.read
            (buf + (i + num_digits - (numDigits val.natAbs : Int))) (numDigits val.natAbs : Int)
          = (decimalDigits val.natAbs).map (fun (d : Nat) => (d : Int) + 48) ∧
      ∀ j, (j < buf + (i + num_digits - (numDigits val.natAbs : Int))
            ∨ buf + (i + num_digits) ≤ j) →
        (FillDigits.loop w factor i buf fuel val num_digits m).2.data j = m.data j := by
  intro fuel
  induction fuel with
  | zero =>
    intro val nd m hr hf hneg hpos
    have h10 : val.natAbs < 10 := by omega
    rw [FillDigits.loop_of_lt w hw factor i buf 0 val nd m hr hneg hpos h10,
      numDigits_of_lt h10, decimalDigits_of_lt h10]
    refine ⟨by simp, rfl, ?_, ?_, ?_⟩
    · simp [Mem.store, List.range_succ]
    · rw [Mem.read_one]
      simp only [Mem.store, Nat.cast_one, if_true, wrap_char_digit _ h10, List.map_cons,
        List.map_nil]
    · intro j hj
      simp only [Mem.store]
      rw [if_neg]
      push_cast at hj
      omega
  | succ f ih =>
    intro val nd m hr hf hneg hpos
    have hd : val.natAbs % 10 < 10 := Nat.mod_lt _ (by decide)
    rcases Nat.lt_or_ge val.natAbs 10 with h10 | h10
    · rw [FillDigits.loop_of_lt w hw factor i buf (f + 1) val nd m hr hneg hpos h10,
        numDigits_of_lt h10, decimalDigits_of_lt h10]
      refine ⟨by simp, rfl, ?_, ?_, ?_⟩
      · simp [Mem.store, List.range_succ]
      · rw [Mem.read_one]
        simp only [Mem.store, Nat.cast_one, if_true, wrap_char_digit _ h10, List.map_cons,
          List.map_nil]
      · intro j hj
        simp only [Mem.store]
        rw [if_neg]
        push_cast at hj
        omega
    · have h : Int.tdiv val 10 ≠ 0 := (tdiv_ten_ne_zero_iff val).mpr h10
      have hneg1 : Int.tdiv val 10 < 0 → factor = -1 :=
        fun hh => hneg ((tdiv_ten_neg_iff val h).mp hh)
      have hpos1 : 0 < Int.tdiv val 10 → factor = 1 := by
        intro hh
        apply hpos
        have := tdiv_ten_neg_iff val h
        omega
      rw [FillDigits.loop_of_ge w hw factor i buf f val nd m hr hneg hpos h10]
      obtain ⟨h1, h2, h3, h4, h5⟩ := ih (Int.tdiv val 10) (nd - 1)
        (m.store (buf + (i + nd - 1)) (((val.natAbs % 10 : Nat) : Int) + 48))
        (inRange_tdiv_ten w val hr) (by rw [natAbs_tdiv_ten]; omega) hneg1 hpos1
      simp only [natAbs_tdiv_ten] at h1 h2 h3 h4 h5
      have hL : numDigits val.natAbs = numDigits (val.natAbs / 10) + 1 := numDigits_of_ge h10
      rw [hL]
      have hp : buf + (i + (nd - 1) - ((numDigits (val.natAbs / 10) : Nat) : Int))
          = buf + (i + nd - ((numDigits (val.natAbs / 10) + 1 : Nat) : Int)) := by
        push_cast; ring
      rw [hp] at h3 h4 h5
      refine ⟨?_, ?_, ?_, ?_, ?_⟩
      · rw [h1]; push_cast; ring
      · rw [h2]; rfl
      · rw [h3, List.range_succ, List.map_append]
        simp only [Mem.store, List.map_cons, List.map_nil, List.append_assoc,
          List.singleton_append]
        congr 2
        push_cast; ring
      · rw [Mem.read_natCast_succ, h4, decimalDigits_of_ge h10, List.map_append]
        congr 1
        rw [h5 _ (Or.inr (by push_cast; omega))]
        simp only [Mem.store, List.map_cons, List.map_nil]
        rw [if_pos (by push_cast; ring), wrap_char_digit _ hd]
      · intro j hj
        rw [h5 j (by omega)]
        simp only [Mem.store]
        rw [if_neg]
        push_cast at hj
        omega

theorem Mem.read_natCast_cons (m : Mem) (p : Int) (L : Nat) :
    m.read p ((L + 1 : Nat) : Int) = m.data p :: m.read (p + 1) (L : Int) := by
  unfold Mem.read
  simp only [Int.toNat_ofNat, List.range_succ_eq_map, List.map_cons, List.map_map,
    Nat.cast_zero, add_zero]
  congr 1
  apply List.map_congr_left
  intro k _
  simp only [Function.comp, Nat.cast_succ]
  congr 1
  ring

theorem wrap_char_minus : wrap 8 45 = 45 := by decide

/-! ## The step budget is never used up -/

/-- The counting loop, started with the budget `val_a.natAbs`, is the
`do { } while` loop of the source: one pass of the body, then the loop again
when the quotient is not 0. -/
theorem IntegerToString.count_unfold (w : Nat) (hw : 0 < w) (val_a num_digits : Int)
    (hr : InRange w val_a) :
    IntegerToString.count w val_a.natAbs val_a num_digits
      = if Int.tdiv val_a 10 ≠ 0 then
          IntegerToString.count w (Int.tdiv val_a 10).natAbs (Int.tdiv val_a 10)
            (num_digits + 1)
        else num_digits + 1 := by
  rw [IntegerToString.count_eq w hw _ _ _ hr (le_refl _)]
  by_cases h : Int.tdiv val_a 10 ≠ 0
  · rw [if_pos h, IntegerToString.count_eq w hw _ _ _ (inRange_tdiv_ten w val_a hr) (le_refl _),
      natAbs_tdiv_ten, numDigits_of_ge ((tdiv_ten_ne_zero_iff val_a).mp h)]
    push_cast; ring
  · rw [if_neg h]
    have h10 : val_a.natAbs < 10 := by
      by_contra hc; exact h ((tdiv_ten_ne_zero_iff val_a).mpr (by omega))
    rw [numDigits_of_lt h10]; rfl

theorem FillDigits.loop_fuel (w : Nat) (hw : 0 < w) (factor i buf : Int) :
    ∀ (fuel1 fuel2 : Nat) (val num_digits : Int) (m : Mem), InRange w val →
      val.natAbs ≤ fuel1 → val.natAbs ≤ fuel2 →
      (val < 0 → factor = -1) → (0 < val → factor = 1) →
      FillDigits.loop w factor i buf fuel1 val num_digits m
        = FillDigits.loop w factor i buf fuel2 val num_digits m := by
  intro fuel1
  induction fuel1 with
  | zero =>
    intro fuel2 val nd m hr h1 _ hneg hpos
    have h10 : val.natAbs < 10 := by omega
    rw [FillDigits.loop_of_lt w hw factor i buf 0 val nd m hr hneg hpos h10,
      FillDigits.loop_of_lt w hw factor i buf fuel2 val nd m hr hneg hpos h10]
  | succ f1 ih =>
    intro fuel2 val nd m hr h1 h2 hneg hpos
    rcases Nat.lt_or_ge val.natAbs 10 with h10 | h10
    · rw [FillDigits.loop_of_lt w hw factor i buf (f1 + 1) val nd m hr hneg hpos h10,
        FillDigits.loop_of_lt w hw factor i buf fuel2 val nd m hr hneg hpos h10]
    · obtain ⟨f2, rfl⟩ : ∃ f2, fuel2 = f2 + 1 := ⟨fuel2 - 1, by omega⟩
      have h : Int.tdiv val 10 ≠ 0 := (tdiv_ten_ne_zero_iff val).mpr h10
      have hneg1 : Int.tdiv val 10 < 0 → factor = -1 :=
        fun hh => hneg ((tdiv_ten_neg_iff val h).mp hh)
      have hpos1 : 0 < Int.tdiv val 10 → factor = 1 := by
        intro hh
        apply hpos
        have := tdiv_ten_neg_iff val h
        omega
      rw [FillDigits.loop_of_ge w hw factor i buf f1 val nd m hr hneg hpos h10,
        FillDigits.loop_of_ge w hw factor i buf f2 val nd m hr hneg hpos h10]
      exact ih f2 _ _ _ (inRange_tdiv_ten w val hr) (by rw [natAbs_tdiv_ten]; omega)
        (by rw [natAbs_tdiv_ten]; omega) hneg1 hpos1

/-- The loop of `FillDigits`, started with the budget `val.natAbs`, is the
`do { } while` loop of the source: one pass of the body, then the loop again
when the quotient is not 0. -/
theorem FillDigits.loop_unfold (w : Nat) (hw : 0 < w) (factor i buf : Int)
    (val num_digits : Int) (m : Mem) (hr : InRange w val)
    (hneg : val < 0 → factor = -1) (hpos : 0 < val → factor = 1) :
    FillDigits.loop w factor i buf val.natAbs val num_digits m
      = if Int.tdiv val 10 ≠ 0 then
          FillDigits.loop w factor i buf (Int.tdiv val 10).natAbs (Int.tdiv val 10)
            (num_digits - 1)
            (m.store (buf + (i + num_digits - 1)) (wrap 32 (Int.tmod val 10 * factor) + 48))
        else
          (num_digits - 1,
            m.store (buf + (i + num_digits - 1)) (wrap 32 (Int.tmod val 10 * factor) + 48)) := by
  rw [digit_eq val factor hneg hpos]
  by_cases h : Int.tdiv val 10 ≠ 0
  · have h10 := (tdiv_ten_ne_zero_iff val).mp h
    have hneg1 : Int.tdiv val 10 < 0 → factor = -1 :=
      fun hh => hneg ((tdiv_ten_neg_iff val h).mp hh)
    have hpos1 : 0 < Int.tdiv val 10 → factor = 1 := by
      intro hh
      apply hpos
      have := tdiv_ten_neg_iff val h
      omega
    obtain ⟨f, hf⟩ : ∃ f, val.natAbs = f + 1 := ⟨val.natAbs - 1, by omega⟩
    have e := FillDigits.loop_of_ge w hw factor i buf f val num_digits m hr hneg hpos h10
    rw [← hf] at e
    rw [if_pos h, e]
    exact FillDigits.loop_fuel w hw factor i buf _ _ _ _ _ (inRange_tdiv_ten w val hr)
      (by rw [natAbs_tdiv_ten]; omega) (le_refl _) hneg1 hpos1
  · have h10 : val.natAbs < 10 := by
      by_contra hc; exact h ((tdiv_ten_ne_zero_iff val).mpr (by omega))
    rw [if_neg h, FillDigits.loop_of_lt w hw factor i buf _ val num_digits m hr hneg hpos h10,
      Nat.mod_eq_of_lt h10]

/-- What `IntegerToString` does on a value of the type, for any contents of
the memory before the call. -/
theorem IntegerToString_spec (w : Nat) (hw : 0 < w) (val : Int) (hr : InRange w val)
    (m : Mem) (buf : Int) :
    (IntegerToString w val m buf).1
        = ((if val < 0 then (1 : Nat) else 0) + numDigits val.natAbs : Nat) ∧
    (IntegerToString w val m buf).2.asserts
        = (m.asserts && decide ((numDigits val.natAbs : Int)
            ≤ kSharedMemBufferSizePerThread - ((if val < 0 then (1 : Nat) else 0 : Nat) : Int))) ∧
    (IntegerToString w val m buf).2.log
        = (List.range (numDigits val.natAbs)).map
            (fun (k : Nat) => buf + ((if val < 0 then (1 : Nat) else 0 : Nat) : Int) + (k : Int))
          ++ ((if val < 0 then [buf] else []) ++ m.log) ∧
    (IntegerToString w val m buf).2.read buf
        (((if val < 0 then (1 : Nat) else 0) + numDigits val.natAbs : Nat) : Int)
        = decimalAscii val ∧
    ∀ j, (j < buf ∨ buf + (((if val < 0 then (1 : Nat) else 0) + numDigits val.natAbs : Nat) : Int)
            ≤ j) →
      (IntegerToString w val m buf).2.data j = m.data j := by
  have hfneg : val < 0 → (if val < 0 then (-1 : Int) else 1) = -1 := fun h => if_pos h
  have hfpos : 0 < val → (if val < 0 then (-1 : Int) else 1) = 1 :=
    fun h => if_neg (by omega)
  unfold IntegerToString FillDigits
  simp only [IntegerToString.count_eq w hw val.natAbs val 0 hr (le_refl _), zero_add]
  by_cases hneg : val < 0
  · simp only [if_pos hneg]
    obtain ⟨_, h2, h3, h4, h5⟩ := FillDigits.loop_spec w hw (if val < 0 then -1 else 1) 1 buf
      val.natAbs val (numDigits val.natAbs : Int)
      ((m.store (buf + 0) 45).check
        (decide ((numDigits val.natAbs : Int) ≤ kSharedMemBufferSizePerThread - 1)))
      hr (le_refl _) hfneg hfpos
    have hp : buf + (1 + (numDigits val.natAbs : Int) - (numDigits val.natAbs : Int))
        = buf + 1 := by ring
    rw [hp] at h3 h4 h5
    simp only [if_pos hneg] at h2 h3 h4 h5
    refine ⟨by push_cast; ring, ?_, ?_, ?_, ?_⟩
    · rw [h2]; simp [Mem.check, Mem.store]
    · rw [h3]; simp [Mem.check, Mem.store]
    · rw [Nat.add_comm 1, Mem.read_natCast_cons, h4, h5 buf (Or.inl (by omega))]
      simp [Mem.check, Mem.store, decimalAscii, if_pos hneg, wrap_char_minus]
    · intro j hj
      rw [h5 j (by push_cast at hj; omega)]
      simp only [Mem.check, Mem.store]
      rw [if_neg]
      push_cast at hj; omega
  · simp only [if_neg hneg]
    obtain ⟨_, h2, h3, h4, h5⟩ := FillDigits.loop_spec w hw (if val < 0 then -1 else 1) 0 buf
      val.natAbs val (numDigits val.natAbs : Int)
      (m.check (decide ((numDigits val.natAbs : Int) ≤ kSharedMemBufferSizePerThread - 0)))
      hr (le_refl _) hfneg hfpos
    have hp : buf + (0 + (numDigits val.natAbs : Int) - (numDigits val.natAbs : Int))
        = buf := by ring
    rw [hp] at h3 h4 h5
    simp only [if_neg hneg] at h2 h3 h4 h5
    refine ⟨by push_cast; ring, ?_, ?_, ?_, ?_⟩
    · rw [h2]; simp [Mem.check]
    · rw [h3]; simp [Mem.check]
    · rw [Nat.zero_add, h4]
      simp [decimalAscii, if_neg hneg]
    · intro j hj
      rw [h5 j (by push_cast at hj; omega)]
      rfl

/-! ## The kernel -/

theorem inRange_zero (w : Nat) : InRange w 0 := by
  unfold InRange
  have : (0 : Int) < 2 ^ (w - 1) := by positivity
  omega

theorem inRange_getD (w : Nat) (vals : List Int) (h : ∀ v ∈ vals, InRange w v) (k : Nat) :
    InRange w (vals.getD k 0) := by
  rcases Nat.lt_or_ge k vals.length with hk | hk
  · rw [List.getD_eq_getElem _ _ hk]
    exact h _ (List.getElem_mem hk)
  · rw [List.getD_eq_default _ _ hk]
    exact inRange_zero w

/-- The bytes handed to `Fingerprint64` are the decimal string of the value,
whatever the memory held before. -/
theorem IntegerToString_read (w : Nat) (hw : 0 < w) (val : Int) (hr : InRange w val)
    (m : Mem) (buf : Int) :
    (IntegerToString w val m buf).2.read buf (IntegerToString w val m buf).1
      = decimalAscii val := by
  obtain ⟨h1, _, _, h4, _⟩ := IntegerToString_spec w hw val hr m buf
  rw [h1, h4]

theorem ComputeHashes.body_hashes_of_inRange (w : Nat) (hw : 0 < w) (F : List Int → Nat)
    (vals : List Int) (num_buckets : Int) (threadIdx tid : Nat)
    (hr : InRange w (vals.getD tid 0)) (st : KState) :
    (ComputeHashes.body w F vals num_buckets threadIdx tid st).hashes
      = st.hashes.set tid (bucketOfValue F num_buckets (vals.getD tid 0)) := by
  unfold ComputeHashes.body bucketOfValue
  simp only [IntegerToString_read w hw _ hr]

theorem ComputeHashes.body_hashes (w : Nat) (hw : 0 < w) (F : List Int → Nat)
    (vals : List Int) (hv : ∀ v ∈ vals, InRange w v) (num_buckets : Int)
    (threadIdx tid : Nat) (st : KState) :
    (ComputeHashes.body w F vals num_buckets threadIdx tid st).hashes
      = st.hashes.set tid (bucketOfValue F num_buckets (vals.getD tid 0)) :=
  ComputeHashes.body_hashes_of_inRange w hw F vals num_buckets threadIdx tid
    (inRange_getD w vals hv tid) st

theorem ComputeHashes.body_undefined (w : Nat) (F : List Int → Nat) (vals : List Int)
    (num_buckets : Int) (threadIdx tid : Nat) (st : KState) :
    (ComputeHashes.body w F vals num_buckets threadIdx tid st).undefined
      = (st.undefined || decide (num_buckets = 0)) := rfl

theorem Good.set (F : List Int → Nat) (vals : List Int) (num_buckets : Int) (i : Nat)
    (hashes : List Int) (tid : Nat) (h : Good F vals num_buckets i hashes) :
    Good F vals num_buckets i
      (hashes.set tid (bucketOfValue F num_buckets (vals.getD tid 0))) := by
  unfold Good at *
  rw [List.getElem?_set]
  by_cases e : tid = i
  · subst e
    have hlt : tid < hashes.length := by
      by_contra hc
      rw [List.getElem?_eq_none (by omega)] at h
      exact Option.noConfusion h
    rw [if_pos rfl, if_pos hlt]
  · rw [if_neg e]; exact h

theorem ComputeHashes.loop_length (w : Nat) (hw : 0 < w) (F : List Int → Nat) (vals : List Int)
    (hv : ∀ v ∈ vals, InRange w v) (vals_size : Int) (num_buckets : Int)
    (threadIdx stride : Nat) :
    ∀ (fuel tid : Nat) (st : KState),
      (ComputeHashes.loop w F vals vals_size num_buckets threadIdx stride fuel tid st).hashes.length
        = st.hashes.length := by
  intro fuel
  induction fuel with
  | zero => intro tid st; unfold ComputeHashes.loop; split <;> rfl
  | succ f ih =>
    intro tid st
    unfold ComputeHashes.loop
    split
    · rw [ih, ComputeHashes.body_hashes w hw F vals hv, List.length_set]
    · rfl

theorem ComputeHashes.loop_good (w : Nat) (hw : 0 < w) (F : List Int → Nat) (vals : List Int)
    (hv : ∀ v ∈ vals, InRange w v) (vals_size : Int) (num_buckets : Int)
    (threadIdx stride i : Nat) :
    ∀ (fuel tid : Nat) (st : KState), Good F vals num_buckets i st.hashes →
      Good F vals num_buckets i
        (ComputeHashes.loop w F vals vals_size num_buckets threadIdx stride fuel tid st).hashes := by
  intro fuel
  induction fuel with
  | zero => intro tid st h; unfold ComputeHashes.loop; split <;> exact h
  | succ f ih =>
    intro tid st h
    unfold ComputeHashes.loop
    split
    · apply ih
      rw [ComputeHashes.body_hashes w hw F vals hv]
      exact Good.set F vals num_buckets i st.hashes tid h
    · exact h

theorem ComputeHashes.loop_undefined (w : Nat) (F : List Int → Nat) (vals : List Int)
    (vals_size : Int) (num_buckets : Int) (hB : num_buckets ≠ 0) (threadIdx stride : Nat) :
    ∀ (fuel tid : Nat) (st : KState), st.undefined = false →
      (ComputeHashes.loop w F vals vals_size num_buckets threadIdx stride fuel tid st).undefined
        = false := by
  intro fuel
  induction fuel with
  | zero => intro tid st h; unfold ComputeHashes.loop; split <;> exact h
  | succ f ih =>
    intro tid st h
    unfold ComputeHashes.loop
    split
    · apply ih
      rw [ComputeHashes.body_undefined, h]
      simp [hB]
    · exact h

/-- The strided loop reaches every index of its residue class. -/
theorem ComputeHashes.loop_covers (w : Nat) (hw : 0 < w) (F : List Int → Nat) (vals : List Int)
    (hv : ∀ v ∈ vals, InRange w v) (vals_size : Int) (num_buckets : Int)
    (threadIdx stride i : Nat) (hi : (i : Int) < vals_size) :
    ∀ (fuel k tid : Nat) (st : KState), i < st.hashes.length → i = tid + k * stride →
      k < fuel →
      Good F vals num_buckets i
        (ComputeHashes.loop w F vals vals_size num_buckets threadIdx stride fuel tid st).hashes := by
  intro fuel
  induction fuel with
  | zero => intro k tid st _ _ hk; omega
  | succ f ih =>
    intro k tid st hlen hik hk
    have hle : tid ≤ i := by rw [hik]; exact Nat.le_add_right _ _
    have hc : (tid : Int) < vals_size := by omega
    unfold ComputeHashes.loop
    rw [if_pos hc]
    cases k with
    | zero =>
      have e : i = tid := by simpa using hik
      subst e
      apply ComputeHashes.loop_good w hw F vals hv
      rw [ComputeHashes.body_hashes w hw F vals hv]
      unfold Good
      rw [List.getElem?_set_self hlen]
    | succ k =>
      apply ih k
      · rw [ComputeHashes.body_hashes w hw F vals hv, List.length_set]; exact hlen
      · rw [hik]; ring
      · omega

theorem foldl_invariant {α β : Type} (P : β → Prop) (f : β → α → β)
    (h : ∀ s a, P s → P (f s a)) : ∀ (l : List α) (s : β), P s → P (l.foldl f s) := by
  intro l
  induction l with
  | nil => intro s hs; exact hs
  | cons a l ih => intro s hs; exact ih (f s a) (h s a hs)

theorem foldl_reaches {α β : Type} (Q P : β → Prop) (f : β → α → β) (x : α)
    (hQ : ∀ s a, Q s → Q (f s a)) (hP : ∀ s a, Q s → P s → P (f s a))
    (hx : ∀ s, Q s → P (f s x)) :
    ∀ (l : List α) (s : β), x ∈ l → Q s → P (l.foldl f s) := by
  intro l
  induction l with
  | nil => intro s hmem _; cases hmem
  | cons a l ih =>
    intro s hmem hs
    rw [List.foldl_cons]
    rcases List.mem_cons.mp hmem with e | hl
    · subst e
      have := foldl_invariant (fun s => Q s ∧ P s) f
        (fun s a h => ⟨hQ s a h.1, hP s a h.1 h.2⟩) l (f s x) ⟨hQ s x hs, hx s hs⟩
      exact this.2
    · exact ih (f s a) hl (hQ s a hs)

theorem ComputeHashes.thread_length (w : Nat) (hw : 0 < w) (F : List Int → Nat)
    (gridDim blockDim : Nat) (vals : List Int) (hv : ∀ v ∈ vals, InRange w v)
    (vals_size num_buckets : Int) (b t : Nat) (st : KState) :
    (ComputeHashes.thread w F gridDim blockDim vals vals_size num_buckets b t st).hashes.length
      = st.hashes.length :=
  ComputeHashes.loop_length w hw F vals hv vals_size num_buckets t _ _ _ st

theorem ComputeHashes.thread_good (w : Nat) (hw : 0 < w) (F : List Int → Nat)
    (gridDim blockDim : Nat) (vals : List Int) (hv : ∀ v ∈ vals, InRange w v)
    (vals_size num_buckets : Int) (i b t : Nat) (st : KState)
    (h : Good F vals num_buckets i st.hashes) :
    Good F vals num_buckets i
      (ComputeHashes.thread w F gridDim blockDim vals vals_size num_buckets b t st).hashes :=
  ComputeHashes.loop_good w hw F vals hv vals_size num_buckets t _ i _ _ st h

theorem ComputeHashes.thread_undefined (w : Nat) (F : List Int → Nat)
    (gridDim blockDim : Nat) (vals : List Int)
    (vals_size num_buckets : Int) (hB : num_buckets ≠ 0) (b t : Nat) (st : KState)
    (h : st.undefined = false) :
    (ComputeHashes.thread w F gridDim blockDim vals vals_size num_buckets b t st).undefined
      = false :=
  ComputeHashes.loop_undefined w F vals vals_size num_buckets hB t _ _ _ st h

/-- The thread whose global index is `i` modulo the number of threads of the
grid writes the entry `i`. -/
theorem ComputeHashes.thread_covers (w : Nat) (hw : 0 < w) (F : List Int → Nat)
    (gridDim blockDim : Nat) (vals : List Int) (hv : ∀ v ∈ vals, InRange w v)
    (vals_size num_buckets : Int) (i b t : Nat) (hi : (i : Int) < vals_size)
    (hbt : b * blockDim + t = i % (blockDim * gridDim)) (st : KState)
    (hlen : i < st.hashes.length) :
    Good F vals num_buckets i
      (ComputeHashes.thread w F gridDim blockDim vals vals_size num_buckets b t st).hashes := by
  unfold ComputeHashes.thread
  apply ComputeHashes.loop_covers w hw F vals hv vals_size num_buckets t _ i hi
    vals_size.toNat (i / (blockDim * gridDim)) _ st hlen
  · rw [hbt, Nat.mul_comm (i / _)]
    exact (Nat.mod_add_div i (blockDim * gridDim)).symm
  · have h1 : i / (blockDim * gridDim) ≤ i := Nat.div_le_self _ _
    omega

theorem ComputeHashes.block_length (w : Nat) (hw : 0 < w) (F : List Int → Nat)
    (gridDim blockDim : Nat) (vals : List Int) (hv : ∀ v ∈ vals, InRange w v)
    (vals_size num_buckets : Int) (shared : Mem) (b : Nat) (st : KState) :
    (ComputeHashes.block w F gridDim blockDim vals vals_size num_buckets shared b st).hashes.length
      = st.hashes.length := by
  unfold ComputeHashes.block
  apply foldl_invariant (fun s : KState => s.hashes.length = st.hashes.length)
  · intro s a hs
    show (ComputeHashes.thread w F gridDim blockDim vals vals_size num_buckets b a s).hashes.length
      = st.hashes.length
    rw [ComputeHashes.thread_length w hw F gridDim blockDim vals hv]; exact hs
  · rfl

theorem ComputeHashes.block_good (w : Nat) (hw : 0 < w) (F : List Int → Nat)
    (gridDim blockDim : Nat) (vals : List Int) (hv : ∀ v ∈ vals, InRange w v)
    (vals_size num_buckets : Int) (shared : Mem) (i b : Nat) (st : KState)
    (h : Good F vals num_buckets i st.hashes) :
    Good F vals num_buckets i
      (ComputeHashes.block w F gridDim blockDim vals vals_size num_buckets shared b st).hashes := by
  unfold ComputeHashes.block
  apply foldl_invariant (fun s : KState => Good F vals num_buckets i s.hashes)
  · intro s a hs
    exact ComputeHashes.thread_good w hw F gridDim blockDim vals hv vals_size num_buckets
      i b a s hs
  · exact h

theorem ComputeHashes.block_undefined (w : Nat) (F : List Int → Nat)
    (gridDim blockDim : Nat) (vals : List Int)
    (vals_size num_buckets : Int) (hB : num_buckets ≠ 0) (shared : Mem) (b : Nat)
    (st : KState) (h : st.undefined = false) :
    (ComputeHashes.block w F gridDim blockDim vals vals_size num_buckets shared b st).undefined
      = false := by
  unfold ComputeHashes.block
  apply foldl_invariant (fun s : KState => s.undefined = false)
  · intro s a hs
    exact ComputeHashes.thread_undefined w F gridDim blockDim vals vals_size num_buckets hB
      b a s hs
  · exact h

theorem ComputeHashes.block_covers (w : Nat) (hw : 0 < w) (F : List Int → Nat)
    (gridDim blockDim : Nat) (vals : List Int) (hv : ∀ v ∈ vals, InRange w v)
    (vals_size num_buckets : Int) (shared : Mem) (i b t : Nat) (hi : (i : Int) < vals_size)
    (ht : t < blockDim) (hbt : b * blockDim + t = i % (blockDim * gridDim)) (st : KState)
    (hlen : i < st.hashes.length) :
    Good F vals num_buckets i
      (ComputeHashes.block w F gridDim blockDim vals vals_size num_buckets shared b st).hashes := by
  unfold ComputeHashes.block
  apply foldl_reaches (fun s : KState => i < s.hashes.length)
    (fun s : KState => Good F vals num_buckets i s.hashes) _ t
  · intro s a hs
    show i < (ComputeHashes.thread w F gridDim blockDim vals vals_size num_buckets b a s).hashes.length
    rw [ComputeHashes.thread_length w hw F gridDim blockDim vals hv]; exact hs
  · intro s a _ hs
    exact ComputeHashes.thread_good w hw F gridDim blockDim vals hv vals_size num_buckets
      i b a s hs
  · intro s hs
    exact ComputeHashes.thread_covers w hw F gridDim blockDim vals hv vals_size num_buckets
      i b t hi hbt s hs
  · exact List.mem_range.mpr ht
  · exact hlen

theorem ComputeHashes_length (w : Nat) (hw : 0 < w) (F : List Int → Nat)
    (gridDim blockDim : Nat) (shared : Nat → Mem) (vals : List Int)
    (hv : ∀ v ∈ vals, InRange w v) (vals_size num_buckets : Int) (hashes : List Int) :
    (ComputeHashes w F gridDim blockDim shared vals vals_size num_buckets hashes).hashes.length
      = hashes.length := by
  unfold ComputeHashes
  apply foldl_invariant (fun s : KState => s.hashes.length = hashes.length)
  · intro s a hs
    show (ComputeHashes.block w F gridDim blockDim vals vals_size num_buckets (shared a) a
      s).hashes.length = hashes.length
    rw [ComputeHashes.block_length w hw F gridDim blockDim vals hv]; exact hs
  · rfl

theorem ComputeHashes_undefined (w : Nat) (F : List Int → Nat)
    (gridDim blockDim : Nat) (shared : Nat → Mem) (vals : List Int)
    (vals_size num_buckets : Int) (hB : num_buckets ≠ 0) (hashes : List Int) :
    (ComputeHashes w F gridDim blockDim shared vals vals_size num_buckets hashes).undefined
      = false := by
  unfold ComputeHashes
  apply foldl_invariant (fun s : KState => s.undefined = false)
  · intro s a hs
    exact ComputeHashes.block_undefined w F gridDim blockDim vals vals_size num_buckets hB
      (shared a) a s hs
  · rfl

/-- Every entry below `vals_size` ends up holding the bucket of its value. -/
theorem ComputeHashes_good (w : Nat) (hw : 0 < w) (F : List Int → Nat)
    (gridDim blockDim : Nat) (hg : 0 < gridDim) (hb : 0 < blockDim) (shared : Nat → Mem)
    (vals : List Int) (hv : ∀ v ∈ vals, InRange w v) (vals_size num_buckets : Int)
    (hashes : List Int) (i : Nat) (hi : (i : Int) < vals_size) (hlen : i < hashes.length) :
    Good F vals num_buckets i
      (ComputeHashes w F gridDim blockDim shared vals vals_size num_buckets hashes).hashes := by
  have hpos : 0 < blockDim * gridDim := Nat.mul_pos hb hg
  have hr : i % (blockDim * gridDim) < blockDim * gridDim := Nat.mod_lt _ hpos
  have hbt : i % (blockDim * gridDim) / blockDim * blockDim
      + i % (blockDim * gridDim) % blockDim = i % (blockDim * gridDim) := by
    rw [Nat.mul_comm]; exact Nat.div_add_mod _ _
  unfold ComputeHashes
  apply foldl_reaches (fun s : KState => i < s.hashes.length)
    (fun s : KState => Good F vals num_buckets i s.hashes) _
    (i % (blockDim * gridDim) / blockDim)
  · intro s a hs
    show i < (ComputeHashes.block w F gridDim blockDim vals vals_size num_buckets (shared a) a
      s).hashes.length
    rw [ComputeHashes.block_length w hw F gridDim blockDim vals hv]; exact hs
  · intro s a _ hs
    exact ComputeHashes.block_good w hw F gridDim blockDim vals hv vals_size num_buckets
      (shared a) i a s hs
  · intro s hs
    exact ComputeHashes.block_covers w hw F gridDim blockDim vals hv vals_size num_buckets
      _ i _ (i % (blockDim * gridDim) % blockDim) hi (Nat.mod_lt _ hb) hbt s hs
  · exact List.mem_range.mpr ((Nat.div_lt_iff_lt_mul hb).mpr (by rw [Nat.mul_comm gridDim blockDim]; exact hr))
  · exact hlen

/-- The kernel computes, entry by entry, the bucket of each value. -/
theorem ComputeHashes_hashes (w : Nat) (hw : 0 < w) (F : List Int → Nat)
    (gridDim blockDim : Nat) (hg : 0 < gridDim) (hb : 0 < blockDim) (shared : Nat → Mem)
    (vals : List Int) (hv : ∀ v ∈ vals, InRange w v) (num_buckets : Int)
    (hashes : List Int) (hlen : hashes.length = vals.length) :
    (ComputeHashes w F gridDim blockDim shared vals (vals.length : Int) num_buckets
        hashes).hashes
      = vals.map (bucketOfValue F num_buckets) := by
  apply List.ext_getElem?
  intro i
  rcases Nat.lt_or_ge i vals.length with hi | hi
  · have h := ComputeHashes_good w hw F gridDim blockDim hg hb shared vals hv
      (vals.length : Int) num_buckets hashes i (by exact_mod_cast hi) (by omega)
    unfold Good at h
    rw [h, List.getElem?_map, List.getElem?_eq_getElem hi, List.getD_eq_getElem _ _ hi]
    rfl
  · rw [List.getElem?_eq_none, List.getElem?_eq_none]
    · simpa using hi
    · rw [ComputeHashes_length w hw F gridDim blockDim shared vals hv]; omega

theorem LaunchTensorToHashBucket_output (w : Nat) (hw : 0 < w) (F : List Int → Nat)
    (block_count : Nat) (hbc : 0 < block_count) (shared : Nat → Mem) (ctx_status : Status)
    (num_buckets : Int) (input : List Int) (hv : ∀ v ∈ input, InRange w v)
    (output : List Int) (hlen : output.length = input.length) :
    (LaunchTensorToHashBucket w F block_count Status.OK shared ctx_status num_buckets input
        (input.length : Int) output).output
      = input.map (bucketOfValue F num_buckets) := by
  unfold LaunchTensorToHashBucket
  by_cases h : (input.length : Int) > 0
  · rw [if_pos h]
    exact ComputeHashes_hashes w hw F block_count kThreadsInBlock hbc (by decide) shared
      input hv num_buckets output hlen
  · rw [if_neg h]
    have h0 : input.length = 0 := by omega
    have hi : input = [] := List.length_eq_zero.mp h0
    have ho : output = [] := List.length_eq_zero.mp (by omega)
    rw [hi, ho]; rfl

/-! ## The bucket expression -/

theorem toNat_emod_of_pos (B : Int) (hB : 0 < B) (hB64 : InRange 64 B) :
    (B % 2 ^ 64).toNat = B.toNat := by
  unfold InRange at hB64
  rw [Int.emod_eq_of_lt (by omega) (by norm_num at hB64 ⊢; omega)]

theorem bucketOf_of_pos (a_hash : Nat) (B : Int) (hB : 0 < B) (hB64 : InRange 64 B) :
    bucketOf a_hash B = ((a_hash % B.toNat : Nat) : Int) := by
  unfold bucketOf
  simp only [toNat_emod_of_pos B hB hB64]
  apply wrap_eq_self 64 (by decide)
  have h1 : a_hash % B.toNat < B.toNat := Nat.mod_lt _ (by omega)
  unfold InRange at *
  omega

theorem bucketOf_of_neg (a_hash : Nat) (B : Int) (hB : B < 0) (hB64 : InRange 64 B) :
    bucketOf a_hash B = wrap 64 ((a_hash % (2 ^ 64 + B).toNat : Nat) : Int) := by
  unfold bucketOf
  unfold InRange at hB64
  have h : B % 2 ^ 64 = 2 ^ 64 + B := by
    rw [← Int.add_mul_emod_self_left B (2 ^ 64) 1, mul_one, add_comm]
    exact Int.emod_eq_of_lt (by norm_num at hB64 ⊢; omega) (by omega)
  simp only [h]

/-! ## Decimal strings -/

theorem decimalDigits_lt (n : Nat) : ∀ d ∈ decimalDigits n, d < 10 := by
  intro d hd
  unfold decimalDigits at hd
  split at hd
  · simp at hd; omega
  · exact Nat.digits_lt_base (by decide) (List.mem_reverse.mp hd)

theorem decimalDigits_ne_nil (n : Nat) : decimalDigits n ≠ [] := by
  intro h
  have := length_decimalDigits n
  rw [h] at this
  have := numDigits_pos n
  simp at *
  omega

theorem ofDigits_decimalDigits (n : Nat) : Nat.ofDigits 10 (decimalDigits n).reverse = n := by
  unfold decimalDigits
  split
  · subst_vars; simp
  · rw [List.reverse_reverse, Nat.ofDigits_digits]

theorem head_decimalDigits (n : Nat) (hn : n ≠ 0) : (decimalDigits n).head? ≠ some 0 := by
  unfold decimalDigits
  rw [if_neg hn, List.head?_reverse,
    List.getLast?_eq_getLast _ (Nat.digits_ne_nil_iff_ne_zero.mpr hn)]
  intro h
  exact Nat.getLast_digit_ne_zero 10 hn (Option.some.inj h)

theorem ten_pow_le_of_numDigits (n : Nat) (hn : n ≠ 0) : 10 ^ (numDigits n - 1) ≤ n := by
  unfold numDigits
  rw [if_neg hn]
  have h := Nat.base_pow_length_digits_le 10 n (by decide) hn
  have hpos : 0 < (Nat.digits 10 n).length :=
    List.length_pos.mpr (Nat.digits_ne_nil_iff_ne_zero.mpr hn)
  obtain ⟨k, hk⟩ : ∃ k, (Nat.digits 10 n).length = k + 1 := ⟨_, (Nat.succ_pred_eq_of_pos hpos).symm⟩
  rw [hk] at h ⊢
  rw [pow_succ] at h
  simp only [Nat.add_sub_cancel]
  omega

theorem natAbs_le_of_inRange (w : Nat) (hw : SupportedWidth w) (v : Int) (hv : InRange w v) :
    v.natAbs ≤ 2 ^ 63 := by
  unfold SupportedWidth at hw
  unfold InRange at hv
  rcases hw with rfl | rfl | rfl | rfl <;> norm_num at hv ⊢ <;> omega

theorem numDigits_le_nineteen (w : Nat) (hw : SupportedWidth w) (v : Int) (hv : InRange w v) :
    numDigits v.natAbs ≤ 19 := by
  apply numDigits_le_of_lt_pow _ 19 (by decide)
  have := natAbs_le_of_inRange w hw v hv
  norm_num at this ⊢
  omega

/-! ## Parsing back -/

theorem parseDigits.go_append_digit (d : Nat) (hd : d < 10) :
    ∀ (xs : List Int) (acc : Nat),
      parseDigits.go (xs ++ [(d : Int) + 48]) acc
        = (parseDigits.go xs acc).map (fun a => a * 10 + d) := by
  intro xs
  induction xs with
  | nil =>
    intro acc
    have hc : (48 : Int) ≤ (d : Int) + 48 ∧ (d : Int) + 48 ≤ 57 := by omega
    simp only [List.nil_append, parseDigits.go, if_pos hc, Option.map_some']
    congr 2
    omega
  | cons c cs ih =>
    intro acc
    simp only [List.cons_append, parseDigits.go]
    split
    · exact ih _
    · rfl

theorem parseDigits.go_decimalDigits (n : Nat) :
    parseDigits.go ((decimalDigits n).map (fun (d : Nat) => (d : Int) + 48)) 0 = some n := by
  induction n using Nat.strong_induction_on with
  | _ n ih =>
    rcases Nat.lt_or_ge n 10 with h | h
    · rw [decimalDigits_of_lt h]
      have := parseDigits.go_append_digit n h [] 0
      simpa [parseDigits.go] using this
    · rw [decimalDigits_of_ge h, List.map_append, List.map_cons, List.map_nil,
        parseDigits.go_append_digit _ (Nat.mod_lt _ (by decide)), ih (n / 10) (by omega)]
      simp only [Option.map_some']
      congr 1
      omega

theorem parseDigits_decimalDigits (n : Nat) :
    parseDigits ((decimalDigits n).map (fun (d : Nat) => (d : Int) + 48)) = some n := by
  unfold parseDigits
  rw [if_neg, parseDigits.go_decimalDigits]
  intro h
  exact decimalDigits_ne_nil n (List.map_eq_nil_iff.mp h)

theorem parseDecimal_decimalAscii (v : Int) : parseDecimal (decimalAscii v) = some v := by
  unfold decimalAscii
  by_cases hneg : v < 0
  · rw [if_pos hneg]
    simp only [List.singleton_append, parseDecimal, if_true, parseDigits_decimalDigits,
      Option.map_some']
    congr 1
    omega
  · rw [if_neg hneg, List.nil_append]
    have hp := parseDigits_decimalDigits v.natAbs
    obtain ⟨d, ds, hds⟩ := List.exists_cons_of_ne_nil (decimalDigits_ne_nil v.natAbs)
    rw [hds] at hp ⊢
    simp only [List.map_cons] at hp ⊢
    have hne : ¬ ((d : Int) + 48 = 45) := by omega
    simp only [parseDecimal, if_neg hne, hp, Option.map_some']
    congr 1
    omega

/-! ## The offsets `IntegerToString` stores to -/

theorem IntegerToString_log (w : Nat) (hw : 0 < w) (val : Int) (hr : InRange w val)
    (m : Mem) (buf : Int) :
    ∃ ws : List Int, (IntegerToString w val m buf).2.log = ws ++ m.log ∧
      ws.length = (if val < 0 then 1 else 0) + numDigits val.natAbs ∧
      ∀ j, j ∈ ws ↔ (buf ≤ j ∧
        j < buf + (((if val < 0 then 1 else 0) + numDigits val.natAbs : Nat) : Int)) := by
  obtain ⟨_, _, h3, _, _⟩ := IntegerToString_spec w hw val hr m buf
  refine ⟨_, by rw [h3, ← List.append_assoc], ?_, ?_⟩
  · by_cases hneg : val < 0
    · simp [if_pos hneg]; omega
    · simp [if_neg hneg]
  · intro j
    by_cases hneg : val < 0
    · simp only [if_pos hneg, List.mem_append, List.mem_map, List.mem_range,
        List.mem_singleton]
      constructor
      · rintro (⟨k, hk, rfl⟩ | rfl) <;> push_cast <;> omega
      · rintro ⟨h1, h2⟩
        by_cases e : j = buf
        · right; exact e
        · left
          refine ⟨(j - buf - 1).toNat, ?_, ?_⟩ <;> push_cast at h2 ⊢ <;> omega
    · simp only [if_neg hneg, List.mem_append, List.mem_map, List.mem_range,
        List.not_mem_nil, or_false]
      constructor
      · rintro ⟨k, hk, rfl⟩; push_cast; omega
      · rintro ⟨h1, h2⟩
        refine ⟨(j - buf).toNat, ?_, ?_⟩ <;> push_cast at h2 ⊢ <;> omega

theorem LaunchTensorToHashBucket_output_of_eq (w : Nat) (hw : 0 < w) (F : List Int → Nat)
    (block_count : Nat) (hbc : 0 < block_count) (shared : Nat → Mem) (ctx_status : Status)
    (num_buckets : Int) (input : List Int) (hv : ∀ v ∈ input, InRange w v)
    (num_elems : Int) (hn : num_elems = (input.length : Int))
    (output : List Int) (hlen : output.length = input.length) :
    (LaunchTensorToHashBucket w F block_count Status.OK shared ctx_status num_buckets input
        num_elems output).output
      = input.map (bucketOfValue F num_buckets) := by
  subst hn
  exact LaunchTensorToHashBucket_output w hw F block_count hbc shared ctx_status num_buckets
    input hv output hlen

theorem length_permute {N : Nat} (p : Equiv.Perm (Fin N)) (l : List Int) :
    (permute p l).length = N := by
  unfold permute
  exact List.length_ofFn _

theorem inRange_permute (w : Nat) {N : Nat} (p : Equiv.Perm (Fin N)) (l : List Int)
    (h : ∀ v ∈ l, InRange w v) : ∀ v ∈ permute p l, InRange w v := by
  intro v hmem
  unfold permute at hmem
  obtain ⟨k, rfl⟩ := (List.mem_ofFn _ _).mp hmem
  exact inRange_getD w l h _

theorem permute_map {N : Nat} (p : Equiv.Perm (Fin N)) (l : List Int) (hl : l.length = N)
    (g : Int → Int) : (permute p l).map g = permute p (l.map g) := by
  unfold permute
  rw [List.map_ofFn]
  congr 1
  funext k
  have hk : (p k).val < l.length := by rw [hl]; exact (p k).isLt
  have hk2 : (p k).val < (l.map g).length := by rw [List.length_map]; exact hk
  simp only [Function.comp, List.getD_eq_getElem _ _ hk, List.getD_eq_getElem _ _ hk2,
    List.getElem_map]

/-! ## The offsets a thread stores to -/

theorem ComputeHashes.body_s (w : Nat) (F : List Int → Nat) (vals : List Int)
    (num_buckets : Int) (threadIdx tid : Nat) (st : KState) :
    (ComputeHashes.body w F vals num_buckets threadIdx tid st).s
      = (IntegerToString w (vals.getD tid 0) st.s
          ((threadIdx : Int) * kSharedMemBufferSizePerThread)).2 := rfl

/-- One call of `IntegerToString` at the slot of thread `t` stores inside the
slot only. -/
theorem IntegerToString_log_in_slot (w : Nat) (hw : SupportedWidth w) (val : Int)
    (hr : InRange w val) (m : Mem) (t : Nat) :
    ∃ ws : List Int,
      (IntegerToString w val m ((t : Int) * kSharedMemBufferSizePerThread)).2.log
        = ws ++ m.log ∧
      ∀ j ∈ ws, (t : Int) * 64 ≤ j ∧ j < (t : Int) * 64 + 64 := by
  obtain ⟨ws, hlog, _, hmem⟩ := IntegerToString_log w hw.pos val hr m
    ((t : Int) * kSharedMemBufferSizePerThread)
  refine ⟨ws, hlog, ?_⟩
  intro j hj
  have h := (hmem j).mp hj
  have h19 := numDigits_le_nineteen w hw val hr
  have hs : (if val < 0 then (1 : Nat) else 0) ≤ 1 := by split <;> omega
  unfold kSharedMemBufferSizePerThread at h
  push_cast at h
  omega

theorem ComputeHashes.loop_log (w : Nat) (hw : SupportedWidth w) (F : List Int → Nat)
    (vals : List Int) (hv : ∀ v ∈ vals, InRange w v) (vals_size num_buckets : Int)
    (t stride : Nat) :
    ∀ (fuel tid : Nat) (st : KState), ∃ ws : List Int,
      (ComputeHashes.loop w F vals vals_size num_buckets t stride fuel tid st).s.log
        = ws ++ st.s.log ∧
      ∀ j ∈ ws, (t : Int) * 64 ≤ j ∧ j < (t : Int) * 64 + 64 := by
  intro fuel
  induction fuel with
  | zero =>
    intro tid st
    refine ⟨[], ?_, by simp⟩
    unfold ComputeHashes.loop
    split <;> rfl
  | succ f ih =>
    intro tid st
    unfold ComputeHashes.loop
    split
    · obtain ⟨ws1, h1, hm1⟩ := ih (tid + stride)
        (ComputeHashes.body w F vals num_buckets t tid st)
      obtain ⟨ws0, h0, hm0⟩ := IntegerToString_log_in_slot w hw (vals.getD tid 0)
        (inRange_getD w vals hv tid) st.s t
      refine ⟨ws1 ++ ws0, ?_, ?_⟩
      · rw [h1, ComputeHashes.body_s, h0, List.append_assoc]
      · intro j hj
        rcases List.mem_append.mp hj with h | h
        · exact hm1 j h
        · exact hm0 j h
    · exact ⟨[], rfl, by simp⟩

theorem IfrtServingCoreSelector.ReserveDevice_sample :
    (IfrtServingCoreSelector.ReserveDevice sampleSelector (-42) 5).reservation
        = (5, [45, 52, 50])
    ∧ (IfrtServingCoreSelector.ReserveDevice sampleSelector (-42) 5).calls = [[45, 52, 50]]
    ∧ (IfrtServingCoreSelector.ReserveDevice sampleSelector (-42) 5).selector_state = 6 := by
  simp [IfrtServingCoreSelector.ReserveDevice, sampleSelector, StrCat, decimalAscii,
    decimalDigits]

theorem nodup_map_offsets (p : Int) (L : Nat) :
    ((List.range L).map (fun (k : Nat) => p + (k : Int))).Nodup := by
  apply List.Nodup.map _ (List.nodup_range L)
  intro a b hab
  have : (a : Int) = (b : Int) := by simpa using hab
  exact_mod_cast this

/-- What `FillDigits` does when `num_digits` is the digit count of `val`. -/
theorem FillDigits_spec (w : Nat) (hw : 0 < w) (val : Int) (hr : InRange w val)
    (i : Int) (m : Mem) (buf : Int) :
    (FillDigits.loop w (if val < 0 then -1 else 1) i buf val.natAbs val
        (numDigits val.natAbs : Int) m).1 = 0
    ∧ (FillDigits w val (numDigits val.natAbs : Int) i m buf).1
        = i + (numDigits val.natAbs : Int)
    ∧ (FillDigits w val (numDigits val.natAbs : Int) i m buf).2.log
        = (List.range (numDigits val.natAbs)).map (fun (k : Nat) => buf + i + (k : Int))
          ++ m.log
    ∧ (FillDigits w val (numDigits val.natAbs : Int) i m buf).2.read (buf + i)
          (numDigits val.natAbs : Int)
        = (decimalDigits val.natAbs).map (fun (d : Nat) => (d : Int) + 48)
    ∧ ∀ j, (j < buf + i ∨ buf + i + (numDigits val.natAbs : Int) ≤ j) →
        (FillDigits w val (numDigits val.natAbs : Int) i m buf).2.data j = m.data j := by
  have hfneg : val < 0 → (if val < 0 then (-1 : Int) else 1) = -1 := fun h => if_pos h
  have hfpos : 0 < val → (if val < 0 then (-1 : Int) else 1) = 1 :=
    fun h => if_neg (by omega)
  have hp : buf + (i + (numDigits val.natAbs : Int) - (numDigits val.natAbs : Int))
      = buf + i := by ring
  obtain ⟨h1, _, _, _, _⟩ := FillDigits.loop_spec w hw (if val < 0 then -1 else 1) i buf
    val.natAbs val (numDigits val.natAbs : Int) m hr (le_refl _) hfneg hfpos
  obtain ⟨_, _, h3, h4, h5⟩ := FillDigits.loop_spec w hw (if val < 0 then -1 else 1) i buf
    val.natAbs val (numDigits val.natAbs : Int)
    (m.check (decide ((numDigits val.natAbs : Int) ≤ kSharedMemBufferSizePerThread - i)))
    hr (le_refl _) hfneg hfpos
  rw [hp] at h3 h4 h5
  refine ⟨by rw [h1]; ring, rfl, ?_, ?_, ?_⟩
  · unfold FillDigits
    exact h3
  · unfold FillDigits
    exact h4
  · intro j hj
    unfold FillDigits
    rw [h5 j (by omega)]
    rfl

/-! ## The claims -/

set_option maxRecDepth 8192

/-- C1: for every input `vals` of values of a supported signed width, every
bucket count `B > 0` (a signed 64-bit value) and every index `i` below the
length of `vals`, the value `ComputeHashes` leaves in `hashes[i]` is
`Fingerprint64(bytes) mod B`, the fingerprint an unsigned 64-bit value and the
remainder taken there, where `bytes` are the first `size` chars that
`IntegerToString(vals[i])` wrote and `size` is the length it returned, on
whatever memory `m` and at whatever offset `buf` it ran.  The same value is
in the output of `LaunchTensorToHashBucket` when the launch succeeds, and no
remainder by zero was executed. -/
theorem C1_hashes_eq_fingerprint_mod (w : Nat) (hw : SupportedWidth w)
    (F : List Int → Nat) (gridDim blockDim : Nat) (hg : 0 < gridDim) (hb : 0 < blockDim)
    (shared : Nat → Mem) (vals : List Int) (hv : ∀ v ∈ vals, InRange w v)
    (B : Int) (hB : 0 < B) (hB64 : InRange 64 B)
    (hashes : List Int) (hlen : hashes.length = vals.length)
    (i : Nat) (hi : i < vals.length) (m : Mem) (buf : Int) (ctx_status : Status) :
    (ComputeHashes w F gridDim blockDim shared vals (vals.length : Int) B hashes).hashes[i]?
      = some (((F ((IntegerToString w (vals.getD i 0) m buf).2.read buf
          (IntegerToString w (vals.getD i 0) m buf).1) % 2 ^ 64 % B.toNat : Nat) : Int))
    ∧ (LaunchTensorToHashBucket w F gridDim Status.OK shared ctx_status B vals
        (vals.length : Int) hashes).output[i]?
      = some (((F ((IntegerToString w (vals.getD i 0) m buf).2.read buf
          (IntegerToString w (vals.getD i 0) m buf).1) % 2 ^ 64 % B.toNat : Nat) : Int))
    ∧ (ComputeHashes w F gridDim blockDim shared vals (vals.length : Int) B hashes).undefined
      = false := by
  have hw0 := hw.pos
  have key : bucketOfValue F B (vals.getD i 0)
      = (((F ((IntegerToString w (vals.getD i 0) m buf).2.read buf
          (IntegerToString w (vals.getD i 0) m buf).1) % 2 ^ 64 % B.toNat : Nat) : Int)) := by
    rw [IntegerToString_read w hw0 _ (inRange_getD w vals hv i)]
    exact bucketOf_of_pos _ B hB hB64
  refine ⟨?_, ?_, ?_⟩
  · rw [ComputeHashes_hashes w hw0 F gridDim blockDim hg hb shared vals hv B hashes hlen,
      List.getElem?_map, List.getElem?_eq_getElem hi, Option.map_some', ← key,
      List.getD_eq_getElem _ _ hi]
  · rw [LaunchTensorToHashBucket_output w hw0 F gridDim hg shared ctx_status B vals hv
        hashes hlen,
      List.getElem?_map, List.getElem?_eq_getElem hi, Option.map_some', ← key,
      List.getD_eq_getElem _ _ hi]
  · exact ComputeHashes_undefined w F gridDim blockDim shared vals _ B (by omega) hashes

/-- C1, at the input `[0, -5, 123, -123]` of `int32` values with 10 buckets, on
a grid of two blocks of two threads, for the entry 3. -/
theorem C1_hashes_eq_fingerprint_mod_witness :
    SupportedWidth 32 ∧ 0 < 2 ∧ (∀ v ∈ [(0 : Int), -5, 123, -123], InRange 32 v) ∧
    (0 : Int) < 10 ∧ InRange 64 10 ∧
    [(7 : Int), 7, 7, 7].length = [(0 : Int), -5, 123, -123].length ∧
    3 < [(0 : Int), -5, 123, -123].length ∧
    ((ComputeHashes 32 sampleFingerprint 2 2 sampleShared [0, -5, 123, -123]
        (([(0 : Int), -5, 123, -123].length : Nat) : Int) 10 [7, 7, 7, 7]).hashes[3]?
      = some (((sampleFingerprint ((IntegerToString 32 ([(0 : Int), -5, 123, -123].getD 3 0)
            (Mem.fill 0) 0).2.read 0
          (IntegerToString 32 ([(0 : Int), -5, 123, -123].getD 3 0) (Mem.fill 0) 0).1)
            % 2 ^ 64 % (10 : Int).toNat : Nat) : Int))
    ∧ (LaunchTensorToHashBucket 32 sampleFingerprint 2 Status.OK sampleShared Status.OK 10
        [0, -5, 123, -123] (([(0 : Int), -5, 123, -123].length : Nat) : Int)
        [7, 7, 7, 7]).output[3]?
      = some (((sampleFingerprint ((IntegerToString 32 ([(0 : Int), -5, 123, -123].getD 3 0)
            (Mem.fill 0) 0).2.read 0
          (IntegerToString 32 ([(0 : Int), -5, 123, -123].getD 3 0) (Mem.fill 0) 0).1)
            % 2 ^ 64 % (10 : Int).toNat : Nat) : Int))
    ∧ (ComputeHashes 32 sampleFingerprint 2 2 sampleShared [0, -5, 123, -123]
        (([(0 : Int), -5, 123, -123].length : Nat) : Int) 10 [7, 7, 7, 7]).undefined
      = false) :=
  ⟨by decide, by decide, by decide, by decide, by decide, by decide, by decide,
    C1_hashes_eq_fingerprint_mod 32 (by decide) sampleFingerprint 2 2 (by decide) (by decide)
      sampleShared [0, -5, 123, -123] (by decide) 10 (by decide) (by decide) [7, 7, 7, 7]
      (by decide) 3 (by decide) (Mem.fill 0) 0 Status.OK⟩

/-- C2: for every signed 64-bit bucket count `B > 0` and every fingerprint
value, the bucket `static_cast<int64>(a_hash % num_buckets)` of the unsigned
64-bit `a_hash` lies in `[0, B)`; so does the bucket the kernel body computes
for any value `v`, whatever the fingerprint function. -/
theorem C2_bucket_in_range (B : Int) (hB : 0 < B) (hB64 : InRange 64 B) (a_hash : Nat)
    (F : List Int → Nat) (w : Nat) (v : Int) (m : Mem) (buf : Int) :
    (0 ≤ bucketOf (a_hash % 2 ^ 64) B ∧ bucketOf (a_hash % 2 ^ 64) B < B) ∧
    (0 ≤ bucketOf (F ((IntegerToString w v m buf).2.read buf
        (IntegerToString w v m buf).1) % 2 ^ 64) B ∧
      bucketOf (F ((IntegerToString w v m buf).2.read buf
        (IntegerToString w v m buf).1) % 2 ^ 64) B < B) := by
  have h : ∀ a : Nat, 0 ≤ bucketOf a B ∧ bucketOf a B < B := by
    intro a
    rw [bucketOf_of_pos a B hB hB64]
    have h1 : a % B.toNat < B.toNat := Nat.mod_lt _ (by omega)
    omega
  exact ⟨h _, h _⟩

/-- C2, at the largest signed 64-bit bucket count and the largest fingerprint
value, for the most negative `int64` input. -/
theorem C2_bucket_in_range_witness :
    (0 : Int) < 9223372036854775807 ∧ InRange 64 9223372036854775807 ∧
    ((0 ≤ bucketOf (18446744073709551615 % 2 ^ 64) 9223372036854775807 ∧
      bucketOf (18446744073709551615 % 2 ^ 64) 9223372036854775807 < 9223372036854775807) ∧
    (0 ≤ bucketOf (sampleFingerprint ((IntegerToString 64 (-9223372036854775808)
        (Mem.fill 0) 0).2.read 0
        (IntegerToString 64 (-9223372036854775808) (Mem.fill 0) 0).1) % 2 ^ 64)
        9223372036854775807 ∧
      bucketOf (sampleFingerprint ((IntegerToString 64 (-9223372036854775808)
        (Mem.fill 0) 0).2.read 0
        (IntegerToString 64 (-9223372036854775808) (Mem.fill 0) 0).1) % 2 ^ 64)
        9223372036854775807 < 9223372036854775807)) :=
  ⟨by decide, by decide,
    C2_bucket_in_range 9223372036854775807 (by decide) (by decide) 18446744073709551615
      sampleFingerprint 64 (-9223372036854775808) (Mem.fill 0) 0⟩

/-- C3: for every value `v` of a supported signed width, the most negative one
included, the chars `IntegerToString(v)` writes are the standard decimal ASCII
representation of `v`: a `'-'` exactly when `v < 0`, then the chars `'0' + d`
for the decimal digits `d` of `|v|`, the most significant first; the digits
are below 10, their value is `|v|`, there is at least one, and the first is
not 0 unless `v = 0`.  In particular 0, -5, 123 and -123 give "0", "-5",
"123" and "-123". -/
theorem C3_decimal_ascii (w : Nat) (hw : SupportedWidth w) (v : Int) (hv : InRange w v)
    (m : Mem) (buf : Int) :
    (IntegerToString w v m buf).2.read buf (IntegerToString w v m buf).1
      = (if v < 0 then [45] else [])
        ++ (decimalDigits v.natAbs).map (fun (d : Nat) => (d : Int) + 48)
    ∧ (∀ d ∈ decimalDigits v.natAbs, d < 10)
    ∧ Nat.ofDigits 10 (decimalDigits v.natAbs).reverse = v.natAbs
    ∧ decimalDigits v.natAbs ≠ []
    ∧ (v ≠ 0 → (decimalDigits v.natAbs).head? ≠ some 0)
    ∧ (IntegerToString w 0 m buf).2.read buf (IntegerToString w 0 m buf).1 = [48]
    ∧ (InRange w (-5) → (IntegerToString w (-5) m buf).2.read buf
        (IntegerToString w (-5) m buf).1 = [45, 53])
    ∧ (InRange w 123 → (IntegerToString w 123 m buf).2.read buf
        (IntegerToString w 123 m buf).1 = [49, 50, 51])
    ∧ (InRange w (-123) → (IntegerToString w (-123) m buf).2.read buf
        (IntegerToString w (-123) m buf).1 = [45, 49, 50, 51]) := by
  have hw0 := hw.pos
  refine ⟨IntegerToString_read w hw0 v hv m buf, decimalDigits_lt _, ofDigits_decimalDigits _,
    decimalDigits_ne_nil _, fun h => head_decimalDigits _ (by omega), ?_, ?_, ?_, ?_⟩
  · rw [IntegerToString_read w hw0 0 (inRange_zero w) m buf]
    simp [decimalAscii, decimalDigits]
  · intro h
    rw [IntegerToString_read w hw0 _ h m buf]
    simp [decimalAscii, decimalDigits]
  · intro h
    rw [IntegerToString_read w hw0 _ h m buf]
    simp [decimalAscii, decimalDigits]
  · intro h
    rw [IntegerToString_read w hw0 _ h m buf]
    simp [decimalAscii, decimalDigits]

/-- C3, at the most negative `int8` value, -128, in a buffer that starts at
offset 64 of a memory full of `'x'`. -/
theorem C3_decimal_ascii_witness :
    SupportedWidth 8 ∧ InRange 8 (-128) ∧
    ((IntegerToString 8 (-128) (Mem.fill 120) 64).2.read 64
        (IntegerToString 8 (-128) (Mem.fill 120) 64).1
      = (if (-128 : Int) < 0 then [45] else [])
        ++ (decimalDigits (-128 : Int).natAbs).map (fun (d : Nat) => (d : Int) + 48)
    ∧ (∀ d ∈ decimalDigits (-128 : Int).natAbs, d < 10)
    ∧ Nat.ofDigits 10 (decimalDigits (-128 : Int).natAbs).reverse = (-128 : Int).natAbs
    ∧ decimalDigits (-128 : Int).natAbs ≠ []
    ∧ ((-128 : Int) ≠ 0 → (decimalDigits (-128 : Int).natAbs).head? ≠ some 0)
    ∧ (IntegerToString 8 0 (Mem.fill 120) 64).2.read 64
        (IntegerToString 8 0 (Mem.fill 120) 64).1 = [48]
    ∧ (InRange 8 (-5) → (IntegerToString 8 (-5) (Mem.fill 120) 64).2.read 64
        (IntegerToString 8 (-5) (Mem.fill 120) 64).1 = [45, 53])
    ∧ (InRange 8 123 → (IntegerToString 8 123 (Mem.fill 120) 64).2.read 64
        (IntegerToString 8 123 (Mem.fill 120) 64).1 = [49, 50, 51])
    ∧ (InRange 8 (-123) → (IntegerToString 8 (-123) (Mem.fill 120) 64).2.read 64
        (IntegerToString 8 (-123) (Mem.fill 120) 64).1 = [45, 49, 50, 51]))
    ∧ (IntegerToString 8 (-128) (Mem.fill 120) 64).2.read 64
        (IntegerToString 8 (-128) (Mem.fill 120) 64).1 = [45, 49, 50, 56] :=
  ⟨by decide, by decide,
    C3_decimal_ascii 8 (by decide) (-128) (by decide) (Mem.fill 120) 64, by decide⟩

/-- C4: round trip.  For every value `v` of a supported signed width, negative
values and the most negative one included, parsing the chars that
`IntegerToString(v)` wrote as a signed decimal integer gives back `v`; and the
string of 0 is exactly "0". -/
theorem C4_round_trip (w : Nat) (hw : SupportedWidth w) (v : Int) (hv : InRange w v)
    (m : Mem) (buf : Int) :
    parseDecimal ((IntegerToString w v m buf).2.read buf (IntegerToString w v m buf).1)
      = some v
    ∧ (v = 0 →
        (IntegerToString w v m buf).2.read buf (IntegerToString w v m buf).1 = [48]) := by
  rw [IntegerToString_read w hw.pos v hv m buf]
  refine ⟨parseDecimal_decimalAscii v, ?_⟩
  intro h
  subst h
  simp [decimalAscii, decimalDigits]

/-- C4, at the most negative `int64` value. -/
theorem C4_round_trip_witness :
    SupportedWidth 64 ∧ InRange 64 (-9223372036854775808) ∧
    (parseDecimal ((IntegerToString 64 (-9223372036854775808) (Mem.fill 0) 0).2.read 0
        (IntegerToString 64 (-9223372036854775808) (Mem.fill 0) 0).1)
      = some (-9223372036854775808)
    ∧ ((-9223372036854775808 : Int) = 0 →
        (IntegerToString 64 (-9223372036854775808) (Mem.fill 0) 0).2.read 0
          (IntegerToString 64 (-9223372036854775808) (Mem.fill 0) 0).1 = [48])) :=
  ⟨by decide, by decide,
    C4_round_trip 64 (by decide) (-9223372036854775808) (by decide) (Mem.fill 0) 0⟩

/-- C5: for every value `v` of a supported signed width, the length that
`IntegerToString(v)` returns is `(1 if v < 0 else 0) + d`, where `d` is the
count of the loop that divides by 10 until the quotient is 0, and `d` is the
number of decimal digits of `|v|`: `d >= 1`, `|v| < 10^d`,
`10^(d-1) <= |v|` unless `v = 0`, and `d = 1` for `v = 0`. -/
theorem C5_length (w : Nat) (hw : SupportedWidth w) (v : Int) (hv : InRange w v)
    (m : Mem) (buf : Int) :
    (IntegerToString w v m buf).1
      = (if v < 0 then 1 else 0) + IntegerToString.count w v.natAbs v 0
    ∧ IntegerToString.count w v.natAbs v 0 = (numDigits v.natAbs : Int)
    ∧ 1 ≤ numDigits v.natAbs
    ∧ v.natAbs < 10 ^ numDigits v.natAbs
    ∧ (v ≠ 0 → 10 ^ (numDigits v.natAbs - 1) ≤ v.natAbs)
    ∧ (v = 0 → IntegerToString.count w v.natAbs v 0 = 1) := by
  have hw0 := hw.pos
  have hc := IntegerToString.count_eq w hw0 v.natAbs v 0 hv (le_refl _)
  rw [zero_add] at hc
  obtain ⟨h1, _⟩ := IntegerToString_spec w hw0 v hv m buf
  refine ⟨?_, hc, numDigits_pos _, lt_ten_pow_numDigits _,
    fun h => ten_pow_le_of_numDigits _ (by omega), ?_⟩
  · rw [h1, hc]
    by_cases hneg : v < 0
    · rw [if_pos hneg, if_pos hneg]; push_cast; ring
    · rw [if_neg hneg, if_neg hneg]; push_cast; ring
  · intro h
    subst h
    rw [hc]
    rfl

/-- C5, at the `int16` value -1000: the length is 5. -/
theorem C5_length_witness :
    SupportedWidth 16 ∧ InRange 16 (-1000) ∧
    ((IntegerToString 16 (-1000) (Mem.fill 0) 0).1
      = (if (-1000 : Int) < 0 then 1 else 0)
        + IntegerToString.count 16 (-1000 : Int).natAbs (-1000) 0
    ∧ IntegerToString.count 16 (-1000 : Int).natAbs (-1000) 0
      = (numDigits (-1000 : Int).natAbs : Int)
    ∧ 1 ≤ numDigits (-1000 : Int).natAbs
    ∧ (-1000 : Int).natAbs < 10 ^ numDigits (-1000 : Int).natAbs
    ∧ ((-1000 : Int) ≠ 0 → 10 ^ (numDigits (-1000 : Int).natAbs - 1) ≤ (-1000 : Int).natAbs)
    ∧ ((-1000 : Int) = 0 → IntegerToString.count 16 (-1000 : Int).natAbs (-1000) 0 = 1))
    ∧ (IntegerToString 16 (-1000) (Mem.fill 0) 0).1 = 5 :=
  ⟨by decide, by decide,
    C5_length 16 (by decide) (-1000) (by decide) (Mem.fill 0) 0, by decide⟩

/-- C6: for every value `v` of a supported width (at most 64 bits), the number
of chars `IntegerToString(v)` writes is at most 20 (19 digits and a sign), so
at most the 64 chars of a scratch slot; the assertion
`num_digits <= kSharedMemBufferSizePerThread - (*i)` at the top of `FillDigits`
holds on the call made from `IntegerToString`, and every offset stored to
during the call lies in `[buf, buf + 64)`. -/
theorem C6_within_scratch (w : Nat) (hw : SupportedWidth w) (v : Int) (hv : InRange w v)
    (m : Mem) (buf : Int) :
    (IntegerToString w v m buf).1 ≤ 20
    ∧ (IntegerToString w v m buf).1 ≤ kSharedMemBufferSizePerThread
    ∧ IntegerToString.count w v.natAbs v 0
        ≤ kSharedMemBufferSizePerThread - (if v < 0 then 1 else 0)
    ∧ (IntegerToString w v m buf).2.asserts = m.asserts
    ∧ ∃ ws : List Int, (IntegerToString w v m buf).2.log = ws ++ m.log
        ∧ (ws.length : Int) = (IntegerToString w v m buf).1
        ∧ ∀ j ∈ ws, buf ≤ j ∧ j < buf + kSharedMemBufferSizePerThread := by
  have hw0 := hw.pos
  have hc := IntegerToString.count_eq w hw0 v.natAbs v 0 hv (le_refl _)
  rw [zero_add] at hc
  have h19 := numDigits_le_nineteen w hw v hv
  obtain ⟨h1, h2, _, _, _⟩ := IntegerToString_spec w hw0 v hv m buf
  obtain ⟨ws, hlog, hlen, hmem⟩ := IntegerToString_log w hw0 v hv m buf
  have hs : (if v < 0 then (1 : Nat) else 0) ≤ 1 := by split <;> omega
  have hsi : (0 : Int) ≤ (if v < 0 then (1 : Int) else 0)
      ∧ (if v < 0 then (1 : Int) else 0) ≤ 1 := by split <;> omega
  have hsz : (IntegerToString w v m buf).1 ≤ 20 := by rw [h1]; push_cast; omega
  refine ⟨hsz, ?_, ?_, ?_, ws, hlog, ?_, ?_⟩
  · unfold kSharedMemBufferSizePerThread; omega
  · rw [hc]; unfold kSharedMemBufferSizePerThread; omega
  · rw [h2]
    have : (numDigits v.natAbs : Int)
        ≤ kSharedMemBufferSizePerThread - ((if v < 0 then (1 : Nat) else 0 : Nat) : Int) := by
      unfold kSharedMemBufferSizePerThread; omega
    rw [decide_eq_true this, Bool.and_true]
  · rw [hlen, h1]
  · intro j hj
    have := (hmem j).mp hj
    unfold kSharedMemBufferSizePerThread
    rw [h1] at hsz
    omega

/-- C6, at the most negative `int64` value, which has the longest string:
20 chars. -/
theorem C6_within_scratch_witness :
    SupportedWidth 64 ∧ InRange 64 (-9223372036854775808) ∧
    ((IntegerToString 64 (-9223372036854775808) (Mem.fill 0) 0).1 ≤ 20
    ∧ (IntegerToString 64 (-9223372036854775808) (Mem.fill 0) 0).1
        ≤ kSharedMemBufferSizePerThread
    ∧ IntegerToString.count 64 (-9223372036854775808 : Int).natAbs (-9223372036854775808) 0
        ≤ kSharedMemBufferSizePerThread - (if (-9223372036854775808 : Int) < 0 then 1 else 0)
    ∧ (IntegerToString 64 (-9223372036854775808) (Mem.fill 0) 0).2.asserts
        = (Mem.fill 0).asserts
    ∧ ∃ ws : List Int,
        (IntegerToString 64 (-9223372036854775808) (Mem.fill 0) 0).2.log
          = ws ++ (Mem.fill 0).log
        ∧ (ws.length : Int) = (IntegerToString 64 (-9223372036854775808) (Mem.fill 0) 0).1
        ∧ ∀ j ∈ ws, 0 ≤ j ∧ j < 0 + kSharedMemBufferSizePerThread)
    ∧ (IntegerToString 64 (-9223372036854775808) (Mem.fill 0) 0).1 = 20 :=
  ⟨by decide, by decide,
    C6_within_scratch 64 (by decide) (-9223372036854775808) (by decide) (Mem.fill 0) 0,
    by decide⟩

/-- C7, refuted as stated: with `num_buckets = -1`, one `int64` element 0 and a
fingerprint of `2^64 - 2`, the functor does not reject the call.  No
`InvalidArgument` is recorded, the kernel is launched once, and the bucket
written is the negative value -2. -/
theorem C7_counterexample :
    (-1 : Int) < 0
    ∧ (LaunchTensorToHashBucket 64 (fun _ => 18446744073709551614) 1 Status.OK sampleShared
        Status.OK (-1) [0] 1 [7]).status ≠ InvalidArgument
    ∧ (LaunchTensorToHashBucket 64 (fun _ => 18446744073709551614) 1 Status.OK sampleShared
        Status.OK (-1) [0] 1 [7]).status = Status.OK
    ∧ (LaunchTensorToHashBucket 64 (fun _ => 18446744073709551614) 1 Status.OK sampleShared
        Status.OK (-1) [0] 1 [7]).launches = 1
    ∧ (LaunchTensorToHashBucket 64 (fun _ => 18446744073709551614) 1 Status.OK sampleShared
        Status.OK (-1) [0] 1 [7]).output = [-2] :=
  ⟨by decide, by decide, by decide, by decide, by decide⟩

/-- C7, amended: `LaunchTensorToHashBucket` does not look at the sign of
`num_buckets`.  For a negative signed 64-bit `num_buckets` and a non-empty
input it launches the kernel once, whatever the launch returns; when the launch
succeeds it records no status of its own, and every output entry is
`static_cast<int64>(Fingerprint64(decimal string) mod (2^64 + num_buckets))`,
the remainder by `num_buckets` converted to unsigned 64 bits. -/
theorem C7_negative_buckets_not_rejected (w : Nat) (hw : SupportedWidth w)
    (F : List Int → Nat) (block_count : Nat) (hbc : 0 < block_count)
    (launch_status : Status) (shared : Nat → Mem) (ctx_status : Status)
    (B : Int) (hB : B < 0) (hB64 : InRange 64 B)
    (input : List Int) (hv : ∀ v ∈ input, InRange w v) (hN : 0 < input.length)
    (output : List Int) (hlen : output.length = input.length) :
    (LaunchTensorToHashBucket w F block_count launch_status shared ctx_status B input
        (input.length : Int) output).launches = 1
    ∧ (LaunchTensorToHashBucket w F block_count Status.OK shared ctx_status B input
        (input.length : Int) output).status = ctx_status
    ∧ (LaunchTensorToHashBucket w F block_count Status.OK shared ctx_status B input
        (input.length : Int) output).output
      = input.map (fun v =>
          wrap 64 (((F (decimalAscii v) % 2 ^ 64 % (2 ^ 64 + B).toNat : Nat) : Int)))
    ∧ (LaunchTensorToHashBucket w F block_count Status.OK shared ctx_status B input
        (input.length : Int) output).undefined = false := by
  have hpos : (input.length : Int) > 0 := by omega
  refine ⟨?_, ?_, ?_, ?_⟩
  · unfold LaunchTensorToHashBucket
    rw [if_pos hpos]
    cases launch_status <;> rfl
  · unfold LaunchTensorToHashBucket
    rw [if_pos hpos]
  · rw [LaunchTensorToHashBucket_output w hw.pos F block_count hbc shared ctx_status B input
      hv output hlen]
    apply List.map_congr_left
    intro v _
    exact bucketOf_of_neg _ B hB hB64
  · unfold LaunchTensorToHashBucket
    rw [if_pos hpos]
    exact ComputeHashes_undefined w F block_count kThreadsInBlock shared input _ B
      (by omega) output

/-- C7 amended, at `num_buckets = -1` and the input `[0]`. -/
theorem C7_negative_buckets_not_rejected_witness :
    SupportedWidth 64 ∧ 0 < 1 ∧ (-1 : Int) < 0 ∧ InRange 64 (-1) ∧
    (∀ v ∈ [(0 : Int)], InRange 64 v) ∧ 0 < [(0 : Int)].length ∧
    [(7 : Int)].length = [(0 : Int)].length ∧
    ((LaunchTensorToHashBucket 64 (fun _ => 18446744073709551614) 1 (Status.Error 8)
        sampleShared Status.OK (-1) [0] (([(0 : Int)].length : Nat) : Int) [7]).launches = 1
    ∧ (LaunchTensorToHashBucket 64 (fun _ => 18446744073709551614) 1 Status.OK
        sampleShared Status.OK (-1) [0] (([(0 : Int)].length : Nat) : Int) [7]).status
      = Status.OK
    ∧ (LaunchTensorToHashBucket 64 (fun _ => 18446744073709551614) 1 Status.OK
        sampleShared Status.OK (-1) [0] (([(0 : Int)].length : Nat) : Int) [7]).output
      = [(0 : Int)].map (fun v =>
          wrap 64 ((((fun _ => 18446744073709551614) (decimalAscii v) % 2 ^ 64
            % (2 ^ 64 + (-1 : Int)).toNat : Nat) : Int)))
    ∧ (LaunchTensorToHashBucket 64 (fun _ => 18446744073709551614) 1 Status.OK
        sampleShared Status.OK (-1) [0] (([(0 : Int)].length : Nat) : Int) [7]).undefined
      = false) :=
  ⟨by decide, by decide, by decide, by decide, by decide, by decide, by decide,
    C7_negative_buckets_not_rejected 64 (by decide) (fun _ => 18446744073709551614) 1
      (by decide) (Status.Error 8) sampleShared Status.OK (-1) (by decide) (by decide) [0]
      (by decide) (by decide) [7] (by decide)⟩

/-- C8: for every call of `LaunchTensorToHashBucket` with `num_elems <= 0`,
whatever `num_buckets`, the input, the output and what a launch would return,
no kernel is launched, the status of the context is left as it was, and the
output is unchanged. -/
theorem C8_no_elements_no_op (w : Nat) (F : List Int → Nat) (block_count : Nat)
    (launch_status : Status) (shared : Nat → Mem) (ctx_status : Status)
    (num_buckets : Int) (input : List Int) (num_elems : Int) (output : List Int)
    (h : num_elems ≤ 0) :
    (LaunchTensorToHashBucket w F block_count launch_status shared ctx_status num_buckets
        input num_elems output).launches = 0
    ∧ (LaunchTensorToHashBucket w F block_count launch_status shared ctx_status num_buckets
        input num_elems output).status = ctx_status
    ∧ (LaunchTensorToHashBucket w F block_count launch_status shared ctx_status num_buckets
        input num_elems output).output = output
    ∧ (LaunchTensorToHashBucket w F block_count launch_status shared ctx_status num_buckets
        input num_elems output).undefined = false := by
  unfold LaunchTensorToHashBucket
  rw [if_neg (by omega)]
  exact ⟨rfl, rfl, rfl, rfl⟩

/-- C8, at `num_elems = 0` with a launch that would fail and `num_buckets = 0`. -/
theorem C8_no_elements_no_op_witness :
    (0 : Int) ≤ 0 ∧
    ((LaunchTensorToHashBucket 32 sampleFingerprint 1 (Status.Error 8) sampleShared Status.OK 0
        [] 0 [1, 2, 3]).launches = 0
    ∧ (LaunchTensorToHashBucket 32 sampleFingerprint 1 (Status.Error 8) sampleShared Status.OK 0
        [] 0 [1, 2, 3]).status = Status.OK
    ∧ (LaunchTensorToHashBucket 32 sampleFingerprint 1 (Status.Error 8) sampleShared Status.OK 0
        [] 0 [1, 2, 3]).output = [1, 2, 3]
    ∧ (LaunchTensorToHashBucket 32 sampleFingerprint 1 (Status.Error 8) sampleShared Status.OK 0
        [] 0 [1, 2, 3]).undefined = false) :=
  ⟨by decide,
    C8_no_elements_no_op 32 sampleFingerprint 1 (Status.Error 8) sampleShared Status.OK 0
      [] 0 [1, 2, 3] (by decide)⟩

/-- C9: the bucket of an element depends on its value and `num_buckets` only.
For every value `v` of a supported width, every `B > 0` and any two contents
`m1`, `m2` of the memory before the call, `IntegerToString` returns the same
length `size`, stores to every offset `buf + k` with `0 <= k < size`, and the
`size` chars then handed to `Fingerprint64` (exactly `size` of them) and the
bucket are the same in both runs; so the kernel body writes the same `hashes`
from both. -/
theorem C9_scratch_contents_irrelevant (w : Nat) (hw : SupportedWidth w) (v : Int)
    (hv : InRange w v) (B : Int) (_hB : 0 < B) (F : List Int → Nat) (m1 m2 : Mem)
    (buf : Int) :
    (IntegerToString w v m1 buf).1 = (IntegerToString w v m2 buf).1
    ∧ (∃ ws : List Int, (IntegerToString w v m1 buf).2.log = ws ++ m1.log
        ∧ ∀ k : Nat, (k : Int) < (IntegerToString w v m1 buf).1 → buf + (k : Int) ∈ ws)
    ∧ ((IntegerToString w v m1 buf).2.read buf (IntegerToString w v m1 buf).1).length
        = (IntegerToString w v m1 buf).1.toNat
    ∧ (IntegerToString w v m1 buf).2.read buf (IntegerToString w v m1 buf).1
        = (IntegerToString w v m2 buf).2.read buf (IntegerToString w v m2 buf).1
    ∧ bucketOf (F ((IntegerToString w v m1 buf).2.read buf
          (IntegerToString w v m1 buf).1) % 2 ^ 64) B
        = bucketOf (F ((IntegerToString w v m2 buf).2.read buf
          (IntegerToString w v m2 buf).1) % 2 ^ 64) B
    ∧ ∀ (vals : List Int) (threadIdx tid : Nat) (hashes : List Int) (u1 u2 : Bool),
        vals.getD tid 0 = v →
        (ComputeHashes.body w F vals B threadIdx tid
            { s := m1, hashes := hashes, undefined := u1 }).hashes
          = (ComputeHashes.body w F vals B threadIdx tid
            { s := m2, hashes := hashes, undefined := u2 }).hashes := by
  have hw0 := hw.pos
  obtain ⟨h1, _⟩ := IntegerToString_spec w hw0 v hv m1 buf
  obtain ⟨h1', _⟩ := IntegerToString_spec w hw0 v hv m2 buf
  obtain ⟨ws, hlog, _, hmem⟩ := IntegerToString_log w hw0 v hv m1 buf
  have hread : (IntegerToString w v m1 buf).2.read buf (IntegerToString w v m1 buf).1
      = (IntegerToString w v m2 buf).2.read buf (IntegerToString w v m2 buf).1 := by
    rw [IntegerToString_read w hw0 v hv m1 buf, IntegerToString_read w hw0 v hv m2 buf]
  refine ⟨by rw [h1, h1'], ⟨ws, hlog, ?_⟩, Mem.length_read _ _ _, hread, by rw [hread], ?_⟩
  · intro k hk
    rw [h1] at hk
    exact (hmem _).mpr ⟨by omega, by omega⟩
  · intro vals threadIdx tid hashes u1 u2 hval
    subst hval
    rw [ComputeHashes.body_hashes_of_inRange w hw0 F vals B threadIdx tid hv,
      ComputeHashes.body_hashes_of_inRange w hw0 F vals B threadIdx tid hv]

/-- C9, for the `int32` value 7 written over the stale chars of a longer
string and over a memory full of `'x'`. -/
theorem C9_scratch_contents_irrelevant_witness :
    SupportedWidth 32 ∧ InRange 32 7 ∧ (0 : Int) < 10 ∧
    ((IntegerToString 32 7 (IntegerToString 32 (-123456) (Mem.fill 0) 0).2 0).1
        = (IntegerToString 32 7 (Mem.fill 120) 0).1
    ∧ (∃ ws : List Int,
        (IntegerToString 32 7 (IntegerToString 32 (-123456) (Mem.fill 0) 0).2 0).2.log
          = ws ++ (IntegerToString 32 (-123456) (Mem.fill 0) 0).2.log
        ∧ ∀ k : Nat,
          (k : Int) < (IntegerToString 32 7 (IntegerToString 32 (-123456) (Mem.fill 0) 0).2 0).1
            → 0 + (k : Int) ∈ ws)
    ∧ ((IntegerToString 32 7 (IntegerToString 32 (-123456) (Mem.fill 0) 0).2 0).2.read 0
          (IntegerToString 32 7 (IntegerToString 32 (-123456) (Mem.fill 0) 0).2 0).1).length
        = (IntegerToString 32 7 (IntegerToString 32 (-123456) (Mem.fill 0) 0).2 0).1.toNat
    ∧ (IntegerToString 32 7 (IntegerToString 32 (-123456) (Mem.fill 0) 0).2 0).2.read 0
          (IntegerToString 32 7 (IntegerToString 32 (-123456) (Mem.fill 0) 0).2 0).1
        = (IntegerToString 32 7 (Mem.fill 120) 0).2.read 0
          (IntegerToString 32 7 (Mem.fill 120) 0).1
    ∧ bucketOf (sampleFingerprint
          ((IntegerToString 32 7 (IntegerToString 32 (-123456) (Mem.fill 0) 0).2 0).2.read 0
            (IntegerToString 32 7 (IntegerToString 32 (-123456) (Mem.fill 0) 0).2 0).1)
          % 2 ^ 64) 10
        = bucketOf (sampleFingerprint ((IntegerToString 32 7 (Mem.fill 120) 0).2.read 0
            (IntegerToString 32 7 (Mem.fill 120) 0).1) % 2 ^ 64) 10
    ∧ ∀ (vals : List Int) (threadIdx tid : Nat) (hashes : List Int) (u1 u2 : Bool),
        vals.getD tid 0 = 7 →
        (ComputeHashes.body 32 sampleFingerprint vals 10 threadIdx tid
            { s := (IntegerToString 32 (-123456) (Mem.fill 0) 0).2, hashes := hashes,
              undefined := u1 }).hashes
          = (ComputeHashes.body 32 sampleFingerprint vals 10 threadIdx tid
            { s := Mem.fill 120, hashes := hashes, undefined := u2 }).hashes)
    ∧ (IntegerToString 32 7 (IntegerToString 32 (-123456) (Mem.fill 0) 0).2 0).2.read 0 7
        = [55, 49, 50, 51, 52, 53, 54] :=
  ⟨by decide, by decide, by decide,
    C9_scratch_contents_irrelevant 32 (by decide) 7 (by decide) 10 (by decide)
      sampleFingerprint (IntegerToString 32 (-123456) (Mem.fill 0) 0).2 (Mem.fill 120) 0,
    by decide⟩

/-- C10: permutation equivariance.  For every input of length `N` of values of
a supported width, every `B > 0` and every permutation `p` of the indices,
running the operation (with a launch that succeeds) on the permuted input
gives the output of the original input permuted by the same `p`, whatever the
outputs and the shared arrays held before. -/
theorem C10_permutation_equivariance (w : Nat) (hw : SupportedWidth w)
    (F : List Int → Nat) (block_count : Nat) (hbc : 0 < block_count)
    (shared shared2 : Nat → Mem) (ctx_status : Status) (B : Int) (_hB : 0 < B)
    (N : Nat) (input : List Int) (hN : input.length = N)
    (hv : ∀ v ∈ input, InRange w v) (output output2 : List Int)
    (hlen : output.length = N) (hlen2 : output2.length = N) (p : Equiv.Perm (Fin N)) :
    (LaunchTensorToHashBucket w F block_count Status.OK shared2 ctx_status B
        (permute p input) (N : Int) output2).output
      = permute p (LaunchTensorToHashBucket w F block_count Status.OK shared ctx_status B
          input (N : Int) output).output := by
  have hw0 := hw.pos
  rw [LaunchTensorToHashBucket_output_of_eq w hw0 F block_count hbc shared2 ctx_status B
      (permute p input) (inRange_permute w p input hv) (N : Int)
      (by rw [length_permute]) output2 (by rw [length_permute, hlen2]),
    LaunchTensorToHashBucket_output_of_eq w hw0 F block_count hbc shared ctx_status B
      input hv (N : Int) (by rw [hN]) output (by rw [hlen, hN])]
  exact permute_map p input hN _

/-- C10, for the input `[0, -5, 123, -123]` and the exchange of its first and
last entries. -/
theorem C10_permutation_equivariance_witness :
    SupportedWidth 32 ∧ 0 < 2 ∧ (0 : Int) < 10 ∧ [(0 : Int), -5, 123, -123].length = 4 ∧
    (∀ v ∈ [(0 : Int), -5, 123, -123], InRange 32 v) ∧
    [(7 : Int), 7, 7, 7].length = 4 ∧ [(1 : Int), 2, 3, 4].length = 4 ∧
    (LaunchTensorToHashBucket 32 sampleFingerprint 2 Status.OK (fun _ => Mem.fill 0)
        Status.OK 10 (permute (Equiv.swap (0 : Fin 4) 3) [0, -5, 123, -123])
        ((4 : Nat) : Int) [1, 2, 3, 4]).output
      = permute (Equiv.swap (0 : Fin 4) 3)
          (LaunchTensorToHashBucket 32 sampleFingerprint 2 Status.OK sampleShared Status.OK 10
            [0, -5, 123, -123] ((4 : Nat) : Int) [7, 7, 7, 7]).output :=
  ⟨by decide, by decide, by decide, by decide, by decide, by decide, by decide,
    C10_permutation_equivariance 32 (by decide) sampleFingerprint 2 (by decide)
      sampleShared (fun _ => Mem.fill 0) Status.OK 10 (by decide) 4 [0, -5, 123, -123]
      (by decide) (by decide) [7, 7, 7, 7] [1, 2, 3, 4] (by decide) (by decide)
      (Equiv.swap (0 : Fin 4) 3)⟩

/-- C11: for every call of `LaunchTensorToHashBucket` with `num_elems > 0` the
launch is attempted exactly once.  When it returns a status that is not OK,
that status is the one recorded on the context (what `OP_REQUIRES_OK` does with
it); when it returns OK, the status of the context is left as it was. -/
theorem C11_launch_failure_recorded (w : Nat) (F : List Int → Nat) (block_count : Nat)
    (launch_status : Status) (shared : Nat → Mem) (ctx_status : Status)
    (num_buckets : Int) (input : List Int) (num_elems : Int) (output : List Int)
    (h : num_elems > 0) :
    (LaunchTensorToHashBucket w F block_count launch_status shared ctx_status num_buckets
        input num_elems output).launches = 1
    ∧ (LaunchTensorToHashBucket w F block_count launch_status shared ctx_status num_buckets
        input num_elems output).status = OP_REQUIRES_OK ctx_status launch_status
    ∧ (∀ code : Nat, launch_status = Status.Error code →
        (LaunchTensorToHashBucket w F block_count launch_status shared ctx_status num_buckets
          input num_elems output).status = Status.Error code)
    ∧ (launch_status = Status.OK →
        (LaunchTensorToHashBucket w F block_count launch_status shared ctx_status num_buckets
          input num_elems output).status = ctx_status) := by
  unfold LaunchTensorToHashBucket
  rw [if_pos h]
  cases launch_status with
  | OK => exact ⟨rfl, rfl, fun code hc => Status.noConfusion hc, fun _ => rfl⟩
  | Error c =>
    refine ⟨rfl, rfl, ?_, fun hc => Status.noConfusion hc⟩
    intro code hc
    rw [Status.Error.inj hc]

/-- C11, for one element and a launch that fails with the code 8. -/
theorem C11_launch_failure_recorded_witness :
    (1 : Int) > 0 ∧
    ((LaunchTensorToHashBucket 32 sampleFingerprint 1 (Status.Error 8) sampleShared Status.OK
        10 [5] 1 [7]).launches = 1
    ∧ (LaunchTensorToHashBucket 32 sampleFingerprint 1 (Status.Error 8) sampleShared Status.OK
        10 [5] 1 [7]).status = OP_REQUIRES_OK Status.OK (Status.Error 8)
    ∧ (∀ code : Nat, Status.Error 8 = Status.Error code →
        (LaunchTensorToHashBucket 32 sampleFingerprint 1 (Status.Error 8) sampleShared
          Status.OK 10 [5] 1 [7]).status = Status.Error code)
    ∧ (Status.Error 8 = Status.OK →
        (LaunchTensorToHashBucket 32 sampleFingerprint 1 (Status.Error 8) sampleShared
          Status.OK 10 [5] 1 [7]).status = Status.OK))
    ∧ (LaunchTensorToHashBucket 32 sampleFingerprint 1 (Status.Error 8) sampleShared Status.OK
        10 [5] 1 [7]).status = Status.Error 8 :=
  ⟨by decide,
    C11_launch_failure_recorded 32 sampleFingerprint 1 (Status.Error 8) sampleShared Status.OK
      10 [5] 1 [7] (by decide),
    by decide⟩

/-- C12: for every injected selector, in any state, and every `program_id`,
`IfrtServingCoreSelector::ReserveDevice(program_id)` calls the `ReserveDevice`
of the injected selector exactly once, with the decimal string of `program_id`
(a string that parses back to `program_id`), returns the reservation of that
call unchanged and leaves the selector in the state that call left. -/
theorem C12_reserve_device_delegates (S R : Type)
    (device_selector_ : ServingDeviceSelector S R) (program_id : Int) (st : S) :
    (IfrtServingCoreSelector.ReserveDevice device_selector_ program_id st).calls
      = [decimalAscii program_id]
    ∧ (IfrtServingCoreSelector.ReserveDevice device_selector_ program_id st).calls.length = 1
    ∧ (IfrtServingCoreSelector.ReserveDevice device_selector_ program_id st).reservation
      = (device_selector_.ReserveDevice (decimalAscii program_id) st).1
    ∧ (IfrtServingCoreSelector.ReserveDevice device_selector_ program_id st).selector_state
      = (device_selector_.ReserveDevice (decimalAscii program_id) st).2
    ∧ parseDecimal (StrCat program_id) = some program_id :=
  ⟨rfl, rfl, rfl, rfl, parseDecimal_decimalAscii program_id⟩

/-- C13: scratch slots are exclusive and in bounds.  With 128 threads per
block and a shared array of `128 * 64` chars, for two threads `t1`, `t2` below
128 (of any blocks, from any states) and any input of values of a supported
width: every offset a thread stores to during its whole loop lies in its slot
`[t*64, t*64 + 64)`, which is inside `[0, 8192)`; so does every offset of the
`size` chars it hands to `Fingerprint64`; and for `t1 != t2` no offset stored
to by one is stored to by the other, the two slots having no offset in
common. -/
theorem C13_scratch_slots_disjoint (w : Nat) (hw : SupportedWidth w) (F : List Int → Nat)
    (gridDim : Nat) (vals : List Int) (hv : ∀ v ∈ vals, InRange w v)
    (vals_size num_buckets : Int) (b1 b2 t1 t2 : Nat)
    (ht1 : t1 < kThreadsInBlock) (ht2 : t2 < kThreadsInBlock) (st1 st2 : KState) :
    ∃ ws1 ws2 : List Int,
      (ComputeHashes.thread w F gridDim kThreadsInBlock vals vals_size num_buckets b1 t1
          st1).s.log = ws1 ++ st1.s.log
      ∧ (ComputeHashes.thread w F gridDim kThreadsInBlock vals vals_size num_buckets b2 t2
          st2).s.log = ws2 ++ st2.s.log
      ∧ (∀ j ∈ ws1, ((t1 : Int) * 64 ≤ j ∧ j < (t1 : Int) * 64 + 64)
          ∧ (0 ≤ j ∧ j < shared_memory_bytes))
      ∧ (∀ j ∈ ws2, ((t2 : Int) * 64 ≤ j ∧ j < (t2 : Int) * 64 + 64)
          ∧ (0 ≤ j ∧ j < shared_memory_bytes))
      ∧ (∀ (tid k : Nat) (m : Mem),
          (k : Int) < (IntegerToString w (vals.getD tid 0) m
              ((t1 : Int) * kSharedMemBufferSizePerThread)).1 →
          ((t1 : Int) * 64 ≤ (t1 : Int) * kSharedMemBufferSizePerThread + (k : Int)
            ∧ (t1 : Int) * kSharedMemBufferSizePerThread + (k : Int) < (t1 : Int) * 64 + 64)
          ∧ (0 ≤ (t1 : Int) * kSharedMemBufferSizePerThread + (k : Int)
            ∧ (t1 : Int) * kSharedMemBufferSizePerThread + (k : Int) < shared_memory_bytes))
      ∧ (t1 ≠ t2 → ∀ j ∈ ws1, j ∉ ws2)
      ∧ (t1 ≠ t2 → ∀ j1 j2 : Int, (t1 : Int) * 64 ≤ j1 → j1 < (t1 : Int) * 64 + 64 →
          (t2 : Int) * 64 ≤ j2 → j2 < (t2 : Int) * 64 + 64 → j1 ≠ j2) := by
  unfold kThreadsInBlock at ht1 ht2
  have hsm : shared_memory_bytes = 8192 := by decide
  obtain ⟨ws1, h1, hm1⟩ := ComputeHashes.loop_log w hw F vals hv vals_size num_buckets t1
    (kThreadsInBlock * gridDim) vals_size.toNat (b1 * kThreadsInBlock + t1) st1
  obtain ⟨ws2, h2, hm2⟩ := ComputeHashes.loop_log w hw F vals hv vals_size num_buckets t2
    (kThreadsInBlock * gridDim) vals_size.toNat (b2 * kThreadsInBlock + t2) st2
  refine ⟨ws1, ws2, h1, h2, ?_, ?_, ?_, ?_, ?_⟩
  · intro j hj
    have := hm1 j hj
    rw [hsm]; omega
  · intro j hj
    have := hm2 j hj
    rw [hsm]; omega
  · intro tid k m hk
    obtain ⟨hsz, _⟩ := IntegerToString_spec w hw.pos (vals.getD tid 0)
      (inRange_getD w vals hv tid) m ((t1 : Int) * kSharedMemBufferSizePerThread)
    have h19 := numDigits_le_nineteen w hw (vals.getD tid 0) (inRange_getD w vals hv tid)
    have hs : (if vals.getD tid 0 < 0 then (1 : Nat) else 0) ≤ 1 := by split <;> omega
    rw [hsz] at hk
    rw [hsm]
    unfold kSharedMemBufferSizePerThread
    push_cast at hk
    omega
  · intro hne j hj1 hj2
    have a := hm1 j hj1
    have b := hm2 j hj2
    omega
  · intro hne j1 j2 a1 a2 b1 b2
    omega

/-- C13, for the threads 0 and 1 of a block on the input `[0, -5, 123, -123]`. -/
theorem C13_scratch_slots_disjoint_witness :
    SupportedWidth 32 ∧ (∀ v ∈ [(0 : Int), -5, 123, -123], InRange 32 v) ∧
    0 < kThreadsInBlock ∧ 1 < kThreadsInBlock ∧
    ∃ ws1 ws2 : List Int,
      (ComputeHashes.thread 32 sampleFingerprint 1 kThreadsInBlock [0, -5, 123, -123] 4 10 0 0
          { s := Mem.fill 120, hashes := [7, 7, 7, 7], undefined := false }).s.log
        = ws1 ++ (KState.mk (Mem.fill 120) [7, 7, 7, 7] false).s.log
      ∧ (ComputeHashes.thread 32 sampleFingerprint 1 kThreadsInBlock [0, -5, 123, -123] 4 10 0
          1 { s := Mem.fill 120, hashes := [7, 7, 7, 7], undefined := false }).s.log
        = ws2 ++ (KState.mk (Mem.fill 120) [7, 7, 7, 7] false).s.log
      ∧ (∀ j ∈ ws1, (((0 : Nat) : Int) * 64 ≤ j ∧ j < ((0 : Nat) : Int) * 64 + 64)
          ∧ (0 ≤ j ∧ j < shared_memory_bytes))
      ∧ (∀ j ∈ ws2, (((1 : Nat) : Int) * 64 ≤ j ∧ j < ((1 : Nat) : Int) * 64 + 64)
          ∧ (0 ≤ j ∧ j < shared_memory_bytes))
      ∧ (∀ (tid k : Nat) (m : Mem),
          (k : Int) < (IntegerToString 32 ([(0 : Int), -5, 123, -123].getD tid 0) m
              (((0 : Nat) : Int) * kSharedMemBufferSizePerThread)).1 →
          (((0 : Nat) : Int) * 64
              ≤ ((0 : Nat) : Int) * kSharedMemBufferSizePerThread + (k : Int)
            ∧ ((0 : Nat) : Int) * kSharedMemBufferSizePerThread + (k : Int)
              < ((0 : Nat) : Int) * 64 + 64)
          ∧ (0 ≤ ((0 : Nat) : Int) * kSharedMemBufferSizePerThread + (k : Int)
            ∧ ((0 : Nat) : Int) * kSharedMemBufferSizePerThread + (k : Int)
              < shared_memory_bytes))
      ∧ (0 ≠ 1 → ∀ j ∈ ws1, j ∉ ws2)
      ∧ (0 ≠ 1 → ∀ j1 j2 : Int, ((0 : Nat) : Int) * 64 ≤ j1 →
          j1 < ((0 : Nat) : Int) * 64 + 64 →
          ((1 : Nat) : Int) * 64 ≤ j2 → j2 < ((1 : Nat) : Int) * 64 + 64 → j1 ≠ j2) :=
  ⟨by decide, by decide, by decide, by decide,
    C13_scratch_slots_disjoint 32 (by decide) sampleFingerprint 1 [0, -5, 123, -123]
      (by decide) 4 10 0 0 0 1 (by decide) (by decide)
      { s := Mem.fill 120, hashes := [7, 7, 7, 7], undefined := false }
      { s := Mem.fill 120, hashes := [7, 7, 7, 7], undefined := false }⟩

/-- C14: for every value `val` of a supported width, every start index `i` and
`num_digits` the digit count that `IntegerToString` computes for `val`, the
loop of `FillDigits` runs exactly `num_digits` times (its counter, taken down
by one per pass, ends at 0, with one store per pass); it stores once to each
of the offsets `buf + i, ..., buf + i + num_digits - 1`, the last one first
(the log lists the latest store first); it leaves every char below `buf + i`
and from `buf + i + num_digits` on unchanged, so the `'-'` that
`IntegerToString` wrote stays; and `*i` ends as `i + num_digits`. -/
theorem C14_fillDigits_frame (w : Nat) (hw : SupportedWidth w) (val : Int)
    (hv : InRange w val) (i : Int) (m : Mem) (buf : Int) :
    IntegerToString.count w val.natAbs val 0 = (numDigits val.natAbs : Int)
    ∧ (FillDigits.loop w (if val < 0 then -1 else 1) i buf val.natAbs val
        (IntegerToString.count w val.natAbs val 0) m).1 = 0
    ∧ (FillDigits w val (IntegerToString.count w val.natAbs val 0) i m buf).1
        = i + IntegerToString.count w val.natAbs val 0
    ∧ (FillDigits w val (IntegerToString.count w val.natAbs val 0) i m buf).2.log
        = (List.range (numDigits val.natAbs)).map (fun (k : Nat) => buf + i + (k : Int))
          ++ m.log
    ∧ ((List.range (numDigits val.natAbs)).map (fun (k : Nat) => buf + i + (k : Int))).Nodup
    ∧ (∀ j, j < buf + i →
        (FillDigits w val (IntegerToString.count w val.natAbs val 0) i m buf).2.data j
          = m.data j)
    ∧ (∀ j, buf + i + IntegerToString.count w val.natAbs val 0 ≤ j →
        (FillDigits w val (IntegerToString.count w val.natAbs val 0) i m buf).2.data j
          = m.data j)
    ∧ (val < 0 → (IntegerToString w val m buf).2.data buf = 45) := by
  have hw0 := hw.pos
  have hc := IntegerToString.count_eq w hw0 val.natAbs val 0 hv (le_refl _)
  rw [zero_add] at hc
  rw [hc]
  obtain ⟨h1, h2, h3, _, h5⟩ := FillDigits_spec w hw0 val hv i m buf
  refine ⟨rfl, h1, h2, h3, nodup_map_offsets (buf + i) _, fun j hj => h5 j (Or.inl hj),
    fun j hj => h5 j (Or.inr hj), ?_⟩
  intro hneg
  obtain ⟨_, _, _, _, h5n⟩ := FillDigits_spec w hw0 val hv (0 + 1) (m.store (buf + 0) 45) buf
  have e : (IntegerToString w val m buf)
      = FillDigits w val (numDigits val.natAbs : Int) (0 + 1) (m.store (buf + 0) 45) buf := by
    unfold IntegerToString
    simp only [hc, if_pos hneg]
  rw [e, h5n buf (Or.inl (by omega))]
  simp only [Mem.store, add_zero, if_true, wrap_char_minus]

/-- C14, for the `int32` value -123 with the sign already at offset 0: the
three digits go to the offsets 3, 2, 1 and `*i` goes from 1 to 4. -/
theorem C14_fillDigits_frame_witness :
    SupportedWidth 32 ∧ InRange 32 (-123) ∧
    (IntegerToString.count 32 (-123 : Int).natAbs (-123) 0
        = (numDigits (-123 : Int).natAbs : Int)
    ∧ (FillDigits.loop 32 (if (-123 : Int) < 0 then -1 else 1) 1 0 (-123 : Int).natAbs (-123)
        (IntegerToString.count 32 (-123 : Int).natAbs (-123) 0)
        ((Mem.fill 120).store 0 45)).1 = 0
    ∧ (FillDigits 32 (-123) (IntegerToString.count 32 (-123 : Int).natAbs (-123) 0) 1
        ((Mem.fill 120).store 0 45) 0).1
        = 1 + IntegerToString.count 32 (-123 : Int).natAbs (-123) 0
    ∧ (FillDigits 32 (-123) (IntegerToString.count 32 (-123 : Int).natAbs (-123) 0) 1
        ((Mem.fill 120).store 0 45) 0).2.log
        = (List.range (numDigits (-123 : Int).natAbs)).map
            (fun (k : Nat) => 0 + 1 + (k : Int))
          ++ ((Mem.fill 120).store 0 45).log
    ∧ ((List.range (numDigits (-123 : Int).natAbs)).map
        (fun (k : Nat) => (0 : Int) + 1 + (k : Int))).Nodup
    ∧ (∀ j, j < 0 + 1 →
        (FillDigits 32 (-123) (IntegerToString.count 32 (-123 : Int).natAbs (-123) 0) 1
          ((Mem.fill 120).store 0 45) 0).2.data j = ((Mem.fill 120).store 0 45).data j)
    ∧ (∀ j, 0 + 1 + IntegerToString.count 32 (-123 : Int).natAbs (-123) 0 ≤ j →
        (FillDigits 32 (-123) (IntegerToString.count 32 (-123 : Int).natAbs (-123) 0) 1
          ((Mem.fill 120).store 0 45) 0).2.data j = ((Mem.fill 120).store 0 45).data j)
    ∧ ((-123 : Int) < 0 →
        (IntegerToString 32 (-123) ((Mem.fill 120).store 0 45) 0).2.data 0 = 45))
    ∧ (FillDigits 32 (-123) 3 1 ((Mem.fill 120).store 0 45) 0).2.log = [1, 2, 3, 0]
    ∧ (FillDigits 32 (-123) 3 1 ((Mem.fill 120).store 0 45) 0).1 = 4 :=
  ⟨by decide, by decide,
    C14_fillDigits_frame 32 (by decide) (-123) (by decide) 1 ((Mem.fill 120).store 0 45) 0,
    by decide, by decide⟩

/-- C15: width independence.  For two supported widths `w1`, `w2` and a value
`v` of both types, `IntegerToString` at `w1` and at `w2` returns the same
length and writes the same chars, whatever the memories and offsets; so for
every `B > 0` the bucket is the same, the kernel body writes the same `hashes`,
and the operation gives the same output on an input whose values are of both
types. -/
theorem C15_width_independent (w1 w2 : Nat) (hw1 : SupportedWidth w1)
    (hw2 : SupportedWidth w2) (v : Int) (hv1 : InRange w1 v) (hv2 : InRange w2 v)
    (B : Int) (_hB : 0 < B) (F : List Int → Nat) (m1 m2 : Mem) (buf1 buf2 : Int)
    (block_count : Nat) (hbc : 0 < block_count) (shared : Nat → Mem) (ctx_status : Status)
    (input : List Int) (hin1 : ∀ x ∈ input, InRange w1 x) (hin2 : ∀ x ∈ input, InRange w2 x)
    (output : List Int) (hlen : output.length = input.length) :
    (IntegerToString w1 v m1 buf1).1 = (IntegerToString w2 v m2 buf2).1
    ∧ (IntegerToString w1 v m1 buf1).2.read buf1 (IntegerToString w1 v m1 buf1).1
        = (IntegerToString w2 v m2 buf2).2.read buf2 (IntegerToString w2 v m2 buf2).1
    ∧ bucketOf (F ((IntegerToString w1 v m1 buf1).2.read buf1
          (IntegerToString w1 v m1 buf1).1) % 2 ^ 64) B
        = bucketOf (F ((IntegerToString w2 v m2 buf2).2.read buf2
          (IntegerToString w2 v m2 buf2).1) % 2 ^ 64) B
    ∧ (∀ (vals : List Int) (threadIdx tid : Nat) (st : KState), vals.getD tid 0 = v →
        (ComputeHashes.body w1 F vals B threadIdx tid st).hashes
          = (ComputeHashes.body w2 F vals B threadIdx tid st).hashes)
    ∧ (LaunchTensorToHashBucket w1 F block_count Status.OK shared ctx_status B input
          (input.length : Int) output).output
        = (LaunchTensorToHashBucket w2 F block_count Status.OK shared ctx_status B input
          (input.length : Int) output).output := by
  have h1 := hw1.pos
  have h2 := hw2.pos
  obtain ⟨s1, _⟩ := IntegerToString_spec w1 h1 v hv1 m1 buf1
  obtain ⟨s2, _⟩ := IntegerToString_spec w2 h2 v hv2 m2 buf2
  have hread : (IntegerToString w1 v m1 buf1).2.read buf1 (IntegerToString w1 v m1 buf1).1
      = (IntegerToString w2 v m2 buf2).2.read buf2 (IntegerToString w2 v m2 buf2).1 := by
    rw [IntegerToString_read w1 h1 v hv1 m1 buf1, IntegerToString_read w2 h2 v hv2 m2 buf2]
  refine ⟨by rw [s1, s2], hread, by rw [hread], ?_, ?_⟩
  · intro vals threadIdx tid st hval
    subst hval
    rw [ComputeHashes.body_hashes_of_inRange w1 h1 F vals B threadIdx tid hv1,
      ComputeHashes.body_hashes_of_inRange w2 h2 F vals B threadIdx tid hv2]
  · rw [LaunchTensorToHashBucket_output w1 h1 F block_count hbc shared ctx_status B input
        hin1 output hlen,
      LaunchTensorToHashBucket_output w2 h2 F block_count hbc shared ctx_status B input
        hin2 output hlen]

/-- C15, for the value -128 as an `int8` and as an `int64`. -/
theorem C15_width_independent_witness :
    SupportedWidth 8 ∧ SupportedWidth 64 ∧ InRange 8 (-128) ∧ InRange 64 (-128) ∧
    (0 : Int) < 10 ∧ 0 < 1 ∧ (∀ x ∈ [(-128 : Int), 127, 0], InRange 8 x) ∧
    (∀ x ∈ [(-128 : Int), 127, 0], InRange 64 x) ∧
    [(7 : Int), 7, 7].length = [(-128 : Int), 127, 0].length ∧
    ((IntegerToString 8 (-128) (Mem.fill 0) 0).1 = (IntegerToString 64 (-128) (Mem.fill 120) 64).1
    ∧ (IntegerToString 8 (-128) (Mem.fill 0) 0).2.read 0 (IntegerToString 8 (-128) (Mem.fill 0) 0).1
        = (IntegerToString 64 (-128) (Mem.fill 120) 64).2.read 64
          (IntegerToString 64 (-128) (Mem.fill 120) 64).1
    ∧ bucketOf (sampleFingerprint ((IntegerToString 8 (-128) (Mem.fill 0) 0).2.read 0
          (IntegerToString 8 (-128) (Mem.fill 0) 0).1) % 2 ^ 64) 10
        = bucketOf (sampleFingerprint ((IntegerToString 64 (-128) (Mem.fill 120) 64).2.read 64
          (IntegerToString 64 (-128) (Mem.fill 120) 64).1) % 2 ^ 64) 10
    ∧ (∀ (vals : List Int) (threadIdx tid : Nat) (st : KState), vals.getD tid 0 = -128 →
        (ComputeHashes.body 8 sampleFingerprint vals 10 threadIdx tid st).hashes
          = (ComputeHashes.body 64 sampleFingerprint vals 10 threadIdx tid st).hashes)
    ∧ (LaunchTensorToHashBucket 8 sampleFingerprint 1 Status.OK sampleShared Status.OK 10
          [-128, 127, 0] (([(-128 : Int), 127, 0].length : Nat) : Int) [7, 7, 7]).output
        = (LaunchTensorToHashBucket 64 sampleFingerprint 1 Status.OK sampleShared Status.OK 10
          [-128, 127, 0] (([(-128 : Int), 127, 0].length : Nat) : Int) [7, 7, 7]).output) :=
  ⟨by decide, by decide, by decide, by decide, by decide, by decide, by decide, by decide,
    by decide,
    C15_width_independent 8 64 (by decide) (by decide) (-128) (by decide) (by decide) 10
      (by decide) sampleFingerprint (Mem.fill 0) (Mem.fill 120) 0 64 1 (by decide)
      sampleShared Status.OK [-128, 127, 0] (by decide) (by decide) [7, 7, 7] (by decide)⟩

/-- C16: the encoding is injective.  For two values `v != u` of the same
supported width the chars written by `IntegerToString(v)` and
`IntegerToString(u)` differ, as lists (in length or in some char); so when
their buckets are equal for a signed 64-bit `B > 0`, either the two
fingerprints are equal on different strings (a collision) or they differ and
have the same remainder by `B`. -/
theorem C16_encoding_injective (w : Nat) (hw : SupportedWidth w) (v u : Int)
    (hv : InRange w v) (hu : InRange w u) (hne : v ≠ u) (m1 m2 : Mem) (buf1 buf2 : Int)
    (F : List Int → Nat) (B : Int) (hB : 0 < B) (hB64 : InRange 64 B) :
    (IntegerToString w v m1 buf1).2.read buf1 (IntegerToString w v m1 buf1).1
      ≠ (IntegerToString w u m2 buf2).2.read buf2 (IntegerToString w u m2 buf2).1
    ∧ (bucketOf (F ((IntegerToString w v m1 buf1).2.read buf1
          (IntegerToString w v m1 buf1).1) % 2 ^ 64) B
        = bucketOf (F ((IntegerToString w u m2 buf2).2.read buf2
          (IntegerToString w u m2 buf2).1) % 2 ^ 64) B →
      F ((IntegerToString w v m1 buf1).2.read buf1 (IntegerToString w v m1 buf1).1) % 2 ^ 64
          = F ((IntegerToString w u m2 buf2).2.read buf2
              (IntegerToString w u m2 buf2).1) % 2 ^ 64
      ∨ (F ((IntegerToString w v m1 buf1).2.read buf1 (IntegerToString w v m1 buf1).1) % 2 ^ 64
          ≠ F ((IntegerToString w u m2 buf2).2.read buf2
              (IntegerToString w u m2 buf2).1) % 2 ^ 64
        ∧ F ((IntegerToString w v m1 buf1).2.read buf1
              (IntegerToString w v m1 buf1).1) % 2 ^ 64 % B.toNat
          = F ((IntegerToString w u m2 buf2).2.read buf2
              (IntegerToString w u m2 buf2).1) % 2 ^ 64 % B.toNat)) := by
  have hw0 := hw.pos
  rw [IntegerToString_read w hw0 v hv m1 buf1, IntegerToString_read w hw0 u hu m2 buf2]
  constructor
  · intro h
    have h1 := parseDecimal_decimalAscii v
    rw [h, parseDecimal_decimalAscii u] at h1
    exact hne (Option.some.inj h1).symm
  · intro hb
    rw [bucketOf_of_pos _ B hB hB64, bucketOf_of_pos _ B hB hB64] at hb
    by_cases e : F (decimalAscii v) % 2 ^ 64 = F (decimalAscii u) % 2 ^ 64
    · exact Or.inl e
    · exact Or.inr ⟨e, by exact_mod_cast hb⟩

/-- C16, for the `int16` values 12 and 21, and for 1 and -1. -/
theorem C16_encoding_injective_witness :
    SupportedWidth 16 ∧ InRange 16 12 ∧ InRange 16 21 ∧ (12 : Int) ≠ 21 ∧ (0 : Int) < 10 ∧
    InRange 64 10 ∧
    ((IntegerToString 16 12 (Mem.fill 0) 0).2.read 0 (IntegerToString 16 12 (Mem.fill 0) 0).1
      ≠ (IntegerToString 16 21 (Mem.fill 0) 0).2.read 0 (IntegerToString 16 21 (Mem.fill 0) 0).1
    ∧ (bucketOf (sampleFingerprint ((IntegerToString 16 12 (Mem.fill 0) 0).2.read 0
          (IntegerToString 16 12 (Mem.fill 0) 0).1) % 2 ^ 64) 10
        = bucketOf (sampleFingerprint ((IntegerToString 16 21 (Mem.fill 0) 0).2.read 0
          (IntegerToString 16 21 (Mem.fill 0) 0).1) % 2 ^ 64) 10 →
      sampleFingerprint ((IntegerToString 16 12 (Mem.fill 0) 0).2.read 0
            (IntegerToString 16 12 (Mem.fill 0) 0).1) % 2 ^ 64
          = sampleFingerprint ((IntegerToString 16 21 (Mem.fill 0) 0).2.read 0
              (IntegerToString 16 21 (Mem.fill 0) 0).1) % 2 ^ 64
      ∨ (sampleFingerprint ((IntegerToString 16 12 (Mem.fill 0) 0).2.read 0
            (IntegerToString 16 12 (Mem.fill 0) 0).1) % 2 ^ 64
          ≠ sampleFingerprint ((IntegerToString 16 21 (Mem.fill 0) 0).2.read 0
              (IntegerToString 16 21 (Mem.fill 0) 0).1) % 2 ^ 64
        ∧ sampleFingerprint ((IntegerToString 16 12 (Mem.fill 0) 0).2.read 0
              (IntegerToString 16 12 (Mem.fill 0) 0).1) % 2 ^ 64 % (10 : Int).toNat
          = sampleFingerprint ((IntegerToString 16 21 (Mem.fill 0) 0).2.read 0
              (IntegerToString 16 21 (Mem.fill 0) 0).1) % 2 ^ 64 % (10 : Int).toNat)))
    ∧ (IntegerToString 16 1 (Mem.fill 0) 0).2.read 0 (IntegerToString 16 1 (Mem.fill 0) 0).1
      ≠ (IntegerToString 16 (-1) (Mem.fill 0) 0).2.read 0
          (IntegerToString 16 (-1) (Mem.fill 0) 0).1 :=
  ⟨by decide, by decide, by decide, by decide, by decide, by decide,
    C16_encoding_injective 16 (by decide) 12 21 (by decide) (by decide) (by decide)
      (Mem.fill 0) (Mem.fill 0) 0 0 sampleFingerprint 10 (by decide) (by decide),
    by decide⟩

end TensorToHashBucket
